import Mathlib

/-!
Shallow embedding of the Plan B Cassandra cluster-provisioning script
(create_cluster.py).  Provider interactions are modelled as explicit
parameters (allocation results, the in-use query, subnet listings, the
bastion-group lookup) and as an event trace; stateful Python code becomes
explicit state passing.  Failure injection is modelled by an optional
fail point threaded through the orchestrator, mirroring the fact that any
provider call may raise.
-/

namespace PlanB

/-- An AWS region name. -/
abbrev Region := String

/-- An IP address, kept as an opaque string exactly as the script does. -/
abbrev Ip := String

/-- The per-node address record stored in the node_ips mapping.
In public mode the script stores the allocate_address response (with
PublicIp and AllocationId, and a synthetic _ip key equal to PublicIp,
lines 164-167); in internal mode it stores only the _ip key (lines 204-206). -/
inductive Addr where
  | pub (publicIp : Ip) (allocationId : String)
  | priv (ip : Ip)
deriving DecidableEq

/-- The _ip field of an address record. -/
def Addr.ip : Addr → Ip
  | .pub p _ => p
  | .priv p => p

/-- The PublicIp field, present only for public addresses. -/
def Addr.publicIp : Addr → Option Ip
  | .pub p _ => some p
  | .priv _ => none

/-- The AllocationId field, present only for public addresses. -/
def Addr.allocationId : Addr → Option String
  | .pub _ a => some a
  | .priv _ => none

/-- A subnet as returned by get_subnets: its SubnetId and the host
addresses of its CidrBlock in iteration order (netaddr iter_hosts). -/
structure Subnet where
  subnetId : String
  hosts : List Ip
deriving DecidableEq

/-- An ingress rule, one element of the ip_permissions list built by
setup_security_groups (lines 43-76). -/
inductive Rule where
  | tcpFromCidr (fromPort toPort : Nat) (cidr : String)
  | allFromGroup (groupId : String)
  | tcpFromGroup (fromPort toPort : Nat) (groupId : String)
deriving DecidableEq

/-- Observable provider calls and pacing sleeps emitted by the script.
terminateInstance is the call the script never makes; it is included so
that its absence from every trace is a meaningful statement.  Calls with
no side effect relevant to the claims (describe calls, tagging, the
5-second pending-state polling, the metric alarm) are not traced: none
of them is a security-group delete, an address release or an instance
termination. -/
inductive Event where
  | allocateAddress (region : Region) (allocationId : String)
  | createSG (region : Region) (sgId : String)
  | authorizeIngress (region : Region) (sgId : String) (perms : List Rule)
  | runInstance (region : Region) (ip : Ip) (subnetId : String) (isSeed : Bool)
  | sleep (seconds : Nat)
  | associateAddress (region : Region) (allocationId : String)
  | deleteSG (region : Region) (sgId : String)
  | releaseAddress (region : Region) (allocationId : String)
  | terminateInstance (region : Region) (instanceId : String)
deriving DecidableEq

/-- Whether an event is a seed-node launch. -/
def Event.isSeedLaunch : Event → Bool
  | .runInstance _ _ _ true => true
  | _ => false

/-- Whether an event is a normal-node launch. -/
def Event.isNormalLaunch : Event → Bool
  | .runInstance _ _ _ false => true
  | _ => false

/-- Whether an event is any instance launch. -/
def Event.isLaunch : Event → Bool
  | .runInstance _ _ _ _ => true
  | _ => false

/-- Whether an event is an instance-termination call. -/
def Event.isTerminate : Event → Bool
  | .terminateInstance _ _ => true
  | _ => false

/-- Whether an event is an ingress-authorization call. -/
def Event.isAuthorize : Event → Bool
  | .authorizeIngress _ _ _ => true
  | _ => false

/-- The security group created by a createSG event, if any. -/
def Event.createdSG : Event → Option (Region × String)
  | .createSG r g => some (r, g)
  | _ => none

/-- The address allocated by an allocateAddress event, if any. -/
def Event.allocatedAddr : Event → Option (Region × String)
  | .allocateAddress r a => some (r, a)
  | _ => none

/-- Line 514: seed_count = min(cluster_size, 3). -/
def seed_count_of (cluster_size : Nat) : Nat := min cluster_size 3

/-- pick_seed_node_ips (lines 210-220): take the first seed_count
addresses of every region.  The Python dict is modelled as an
association list preserving insertion order. -/
def pick_seed_node_ips (node_ips : List (Region × List Addr)) (seed_count : Nat) :
    List (Region × List Addr) :=
  node_ips.map (fun p => (p.1, p.2.take seed_count))

/-- A point at which a provider call raises, injected into the
orchestrator to model an arbitrary unhandled failure.  numDone and
regionIdx say how far the enclosing loop got before the raising call. -/
inductive FailAt where
  | amis
  | allocPub (regionIdx numDone : Nat)
  | allocPriv (numDone : Nat)
  | sgSetup (regionIdx : Nat) (created : Bool)
  | userData
  | seedLaunch (numDone : Nat)
  | normalLaunch (numDone : Nat)
deriving DecidableEq

/-- An unhandled failure of a run: either an injected provider error, or
the StopIteration escaping from an exhausted subnet iterator in
allocate_private_ips. -/
inductive RunError where
  | injected (fp : FailAt)
  | addressExhausted
deriving DecidableEq

/-- The inner while loop of allocate_private_ips (lines 193-207): scan
the remaining candidate addresses of a subnet iterator, querying
describe_instances for each; return the first address that no running
instance holds, together with the rest of the iterator.  none models the
iterator exhausting, in which case the Python __next__ call raises
StopIteration. -/
def findFreeIp (used : Ip → Bool) : List Ip → Option (Ip × List Ip)
  | [] => none
  | h :: t => if used h then findFreeIp used t else some (h, t)

/-- One iteration of the outer for loop of allocate_private_ips
(lines 181-207) for node index i: take the iterator of subnet
i % numSubnets (line 182), skip 10 addresses when this is the first
visit to that subnet (line 184: i < len(subnets)), and scan for a free
address.  The state is the list of per-subnet iterators (their
remaining host lists, line 179); the chosen subnet iterator resumes
from the stored rest on a later visit. -/
def private_ip_step (used : Ip → Bool) (numSubnets i : Nat)
    (state : List (List Ip)) : Option (Ip × List (List Ip)) :=
  let j := i % numSubnets
  let hosts0 := state.getD j []
  let hosts := if i < numSubnets then hosts0.drop 10 else hosts0
  match findFreeIp used hosts with
  | none => none
  | some (ip, rest) => some (ip, state.set j rest)

/-- The outer for loop of allocate_private_ips, with failure injection:
fail? = some k makes the provider call for node index k raise.  Returns
the addresses appended before any failure together with the failure, if
one occurred. -/
def private_ips_go (used : Ip → Bool) (fail? : Option Nat) (numSubnets : Nat) :
    Nat → Nat → List (List Ip) → List Ip × Option RunError
  | 0, _, _ => ([], none)
  | k+1, i, state =>
    if fail? = some i then ([], some (.injected (.allocPriv i)))
    else
      match private_ip_step used numSubnets i state with
      | none => ([], some .addressExhausted)
      | some (ip, state') =>
        let res := private_ips_go used fail? numSubnets k (i+1) state'
        (ip :: res.1, res.2)

/-- allocate_private_ips (lines 171-207) without failure injection:
search the host ranges of the subnets of one region for cluster_size
addresses that no running instance already holds. -/
def allocate_private_ips (used : Ip → Bool) (cluster_size : Nat)
    (hostsPerSubnet : List (List Ip)) : List Ip × Option RunError :=
  private_ips_go used none hostsPerSubnet.length cluster_size 0 hostsPerSubnet

/-- The inner loop of allocate_public_ips (lines 164-168) for one
region: request cluster_size fresh address allocations, recording the
PublicIp and AllocationId of each response.  fail? = some (regionIdx, i)
makes the allocate_address call for index i in that region raise. -/
def alloc_region_go (alloc : Region → Nat → Ip × String) (r : Region) (regionIdx : Nat)
    (fail? : Option (Nat × Nat)) : Nat → Nat → List Addr × List Event × Option RunError
  | 0, _ => ([], [], none)
  | k+1, i =>
    if fail? = some (regionIdx, i) then ([], [], some (.injected (.allocPub regionIdx i)))
    else
      let a := alloc r i
      let res := alloc_region_go alloc r regionIdx fail? k (i+1)
      (Addr.pub a.1 a.2 :: res.1, .allocateAddress r a.2 :: res.2.1, res.2.2)

/-- allocate_public_ips (lines 160-168) over all regions with failure
injection.  A region key appears in the node_ips mapping only once an
address has actually been appended for it (defaultdict semantics). -/
def allocate_public_ips_go (alloc : Region → Nat → Ip × String) (cluster_size : Nat)
    (fail? : Option (Nat × Nat)) :
    Nat → List Region → List (Region × List Addr) × List Event × Option RunError
  | _, [] => ([], [], none)
  | regionIdx, r :: rs =>
    let res := alloc_region_go alloc r regionIdx fail? cluster_size 0
    let entry : List (Region × List Addr) := if res.1 = [] then [] else [(r, res.1)]
    match res.2.2 with
    | some e => (entry, res.2.1, some e)
    | none =>
      let rest := allocate_public_ips_go alloc cluster_size fail? (regionIdx+1) rs
      (entry ++ rest.1, res.2.1 ++ rest.2.1, rest.2.2)

/-- allocate_public_ips without failure injection. -/
def allocate_public_ips (alloc : Region → Nat → Ip × String) (cluster_size : Nat)
    (regions : List Region) : List (Region × List Addr) × List Event × Option RunError :=
  allocate_public_ips_go alloc cluster_size none 0 regions

/-- The ingress rule list assembled for one region by
setup_security_groups (lines 43-73): when internal is false, one TCP
7001 rule per node address across all regions (lines 44-54, built from
the PublicIp of every entry of the whole node_ips mapping); always the
self-referential all-protocol rule (lines 58-59); and the SSH rule from
the bastion group when the lookup succeeds (lines 62-73).  A bastion
lookup error models the ClientError caught at line 74, in which case
the SSH rule is skipped. -/
def region_ip_permissions (internal : Bool) (node_ips : List (Region × List Addr))
    (sgId : String) (bastion : Except Unit String) : List Rule :=
  (if internal then []
   else (node_ips.flatMap (fun p => p.2)).map
     (fun a => Rule.tcpFromCidr 7001 7001 ((a.publicIp.getD "") ++ "/32")))
  ++ [Rule.allFromGroup sgId]
  ++ (match bastion with
      | .ok g => [Rule.tcpFromGroup 22 22 g]
      | .error _ => [])

/-- The region loop of setup_security_groups (lines 28-79) with failure
injection.  For each region of the node_ips mapping, in insertion
order: create the group, insert it into the result mapping (line 38,
immediately after creation and before tagging or authorization), and
issue exactly one authorize_security_group_ingress call.
fail? = some (rIdx, false) raises before the group of the region at
index rIdx is created; some (rIdx, true) raises after creation and
insertion but before authorization. -/
def setup_security_groups_go (internal : Bool) (all_node_ips : List (Region × List Addr))
    (sgIdOf : Region → String) (bastion : Region → Except Unit String)
    (fail? : Option (Nat × Bool)) :
    Nat → List (Region × List Addr) →
    List (Region × String) × List Event × Option RunError
  | _, [] => ([], [], none)
  | rIdx, (r, _) :: rest =>
    if fail? = some (rIdx, false) then
      ([], [], some (.injected (.sgSetup rIdx false)))
    else
      let g := sgIdOf r
      if fail? = some (rIdx, true) then
        ([(r, g)], [.createSG r g], some (.injected (.sgSetup rIdx true)))
      else
        let perms := region_ip_permissions internal all_node_ips g (bastion r)
        let res := setup_security_groups_go internal all_node_ips sgIdOf bastion fail? (rIdx+1) rest
        ((r, g) :: res.1, .createSG r g :: .authorizeIngress r g perms :: res.2.1, res.2.2)

/-- setup_security_groups (lines 23-79). -/
def setup_security_groups (internal : Bool) (node_ips : List (Region × List Addr))
    (sgIdOf : Region → String) (bastion : Region → Except Unit String)
    (fail? : Option (Nat × Bool)) :
    List (Region × String) × List Event × Option RunError :=
  setup_security_groups_go internal node_ips sgIdOf bastion fail? 0 node_ips

/-- The Ebs sub-dict of a block-device mapping entry.  Absent keys are
none; the image typically populates snapshotId, volumeSize and
encrypted on its root entry. -/
structure Ebs where
  snapshotId : Option String := none
  volumeSize : Option Nat := none
  volumeType : Option String := none
  iops : Option Nat := none
  deleteOnTermination : Option Bool := none
  encrypted : Option Bool := none
deriving DecidableEq

/-- A block-device mapping entry: either it has an Ebs key, or it is an
ephemeral (instance-store) entry with a VirtualName, or it is the
NoDevice suppression marker. -/
inductive BlockDevice where
  | ebs (deviceName : String) (e : Ebs)
  | ephemeral (deviceName : String) (virtualName : String)
  | noDevice (deviceName : String)
deriving DecidableEq

/-- The DeviceName key of a block-device mapping entry. -/
def BlockDevice.deviceName : BlockDevice → String
  | .ebs n _ => n
  | .ephemeral n _ => n
  | .noDevice n => n

/-- Whether an entry is an ephemeral (instance-store) device. -/
def BlockDevice.isEphemeral : BlockDevice → Bool
  | .ephemeral _ _ => true
  | _ => false

/-- The launch options relevant to the block-device computation
(--volume-type, --volume-size, --volume-iops). -/
structure LaunchOptions where
  volume_type : String
  volume_size : Nat
  volume_iops : Nat
deriving DecidableEq

/-- The data EBS dict of launch_instance (lines 321-326): persisted
(DeleteOnTermination false), encrypted, sized and typed from the
options, with Iops added only for the io1 volume type. -/
def data_ebs (opts : LaunchOptions) : Ebs :=
  let e : Ebs := { volumeType := some opts.volume_type,
                   volumeSize := some opts.volume_size,
                   deleteOnTermination := some false,
                   encrypted := some true }
  if opts.volume_type = "io1" then { e with iops := some opts.volume_iops } else e

/-- The block-device loop of launch_instance (lines 296-318).  First
component: the entries appended to the submitted list — for an entry
with an Ebs key, a deep copy with the Encrypted key deleted
(lines 308-314); for any other entry, the NoDevice marker under the
same DeviceName (lines 316-318).  Second component: the image
block_device_mappings as left behind by the loop — the deep copy at
line 308 means the deletion acts on the copy, so each original entry is
kept as is; without the copy the Encrypted deletion would act on the
shared entry. -/
def sanitize_block_devices : List BlockDevice → List BlockDevice × List BlockDevice
  | [] => ([], [])
  | bd :: rest =>
    let res := sanitize_block_devices rest
    match bd with
    | .ebs name e =>
      (BlockDevice.ebs name { e with encrypted := none } :: res.1,
       BlockDevice.ebs name e :: res.2)
    | .ephemeral name v =>
      (BlockDevice.noDevice name :: res.1, BlockDevice.ephemeral name v :: res.2)
    | .noDevice name =>
      (BlockDevice.noDevice name :: res.1, BlockDevice.noDevice name :: res.2)

/-- Lines 296-332 of launch_instance: the sanitized image entries with
the data EBS volume appended at the fixed device path /dev/xvdf
(line 332), paired with the state of the image block_device_mappings
after the computation. -/
def build_block_devices (opts : LaunchOptions) (image_bdm : List BlockDevice) :
    List BlockDevice × List BlockDevice :=
  let s := sanitize_block_devices image_bdm
  (s.1 ++ [BlockDevice.ebs "/dev/xvdf" (data_ebs opts)], s.2)

/-- launch_instance (lines 285-391) as an event trace: the
run_instances call (line 349), then — in public mode only — the
associate_address call binding the reserved allocation (lines 367-369).
Tagging, the pending-state polling and the alarm registration are not
traced: none of them is a security-group delete, an address release or
an instance termination, and they emit no pacing sleeps of the
60-second kind. -/
def launch_instance (region : Region) (a : Addr) (subnetId : String)
    (isSeed : Bool) (internal : Bool) : List Event :=
  Event.runInstance region a.ip subnetId isSeed ::
    (if internal then [] else [Event.associateAddress region (a.allocationId.getD "")])

/-- The nested region/node loops of launch_seed_nodes and
launch_normal_nodes flattened into one schedule: every (region,
per-region index, address) triple in iteration order. -/
def launch_schedule (node_ips : List (Region × List Addr)) : List (Region × Nat × Addr) :=
  node_ips.flatMap (fun p => p.2.enum.map (fun q => (p.1, q.1, q.2)))

/-- The loop body of launch_seed_nodes (lines 394-409) with failure
injection: launch each seed, bumping a system-wide counter, and sleep
60 seconds after every launch except when the counter has reached
total_seed_count (lines 406-409).  fail? = some k makes the k-th
launch_instance call raise before any of its effects. -/
def launch_seeds_go (internal : Bool) (subnetIds : Region → List String)
    (total : Nat) (fail? : Option Nat) :
    Nat → List (Region × Nat × Addr) → List Event × Option RunError
  | _, [] => ([], none)
  | launched, (r, i, a) :: rest =>
    if fail? = some launched then ([], some (.injected (.seedLaunch launched)))
    else
      let block := launch_instance r a ((subnetIds r).getD (i % (subnetIds r).length) "") true internal
      let pace := if launched + 1 < total then [Event.sleep 60] else []
      let res := launch_seeds_go internal subnetIds total fail? (launched + 1) rest
      (block ++ pace ++ res.1, res.2)

/-- launch_seed_nodes (lines 394-409): total_seed_count is
seed_count * len(regions) (line 395). -/
def launch_seed_nodes (internal : Bool) (seed_nodes : List (Region × List Addr))
    (subnetIds : Region → List String) (total_seed_count : Nat) (fail? : Option Nat) :
    List Event × Option RunError :=
  launch_seeds_go internal subnetIds total_seed_count fail? 0 (launch_schedule seed_nodes)

/-- The loop body of launch_normal_nodes (lines 412-426) with failure
injection: iterate every node of every region, skip indices below
seed_count (line 417), and sleep 60 seconds immediately before each
launch (lines 419-420).  fail? counts performed normal launches and
makes that launch_instance call raise after its preceding sleep. -/
def launch_normals_go (internal : Bool) (subnetIds : Region → List String)
    (seed_count : Nat) (fail? : Option Nat) :
    Nat → List (Region × Nat × Addr) → List Event × Option RunError
  | _, [] => ([], none)
  | launched, (r, i, a) :: rest =>
    if i < seed_count then launch_normals_go internal subnetIds seed_count fail? launched rest
    else if fail? = some launched then
      ([Event.sleep 60], some (.injected (.normalLaunch launched)))
    else
      let block := Event.sleep 60 ::
        launch_instance r a ((subnetIds r).getD (i % (subnetIds r).length) "") false internal
      let res := launch_normals_go internal subnetIds seed_count fail? (launched + 1) rest
      (block ++ res.1, res.2)

/-- launch_normal_nodes (lines 412-426). -/
def launch_normal_nodes (internal : Bool) (node_ips : List (Region × List Addr))
    (subnetIds : Region → List String) (seed_count : Nat) (fail? : Option Nat) :
    List Event × Option RunError :=
  launch_normals_go internal subnetIds seed_count fail? 0 (launch_schedule node_ips)

/-- The provider environment of one cli invocation: the chosen regions
and flags, the responses of allocate_address (pubAlloc), the
private-ip-address in-use query backing describe_instances (usedIp),
the get_subnets result per region, the GroupId that
create_security_group assigns per region, and the bastion-group lookup
result per region. -/
structure CliEnv where
  regions : List Region
  internal : Bool
  cluster_size : Nat
  pubAlloc : Region → Nat → Ip × String
  usedIp : Ip → Bool
  subnets : Region → List Subnet
  sgIdOf : Region → String
  bastion : Region → Except Unit String

/-- The SubnetId list of a region, in the get_subnets order. -/
def CliEnv.subnetIds (env : CliEnv) (r : Region) : List String :=
  (env.subnets r).map (fun s => s.subnetId)

/-- The working state of the try block of cli at its end or at the point
of failure, together with the emitted events. -/
structure BodyResult where
  node_ips : List (Region × List Addr)
  security_groups : List (Region × String)
  events : List Event
  err : Option RunError
deriving DecidableEq

/-- Which allocate_private_ips index the injected failure hits, if any. -/
def allocPrivFail : Option FailAt → Option Nat
  | some (.allocPriv k) => some k
  | _ => none

/-- Which allocate_public_ips position the injected failure hits. -/
def allocPubFail : Option FailAt → Option (Nat × Nat)
  | some (.allocPub r k) => some (r, k)
  | _ => none

/-- Which setup_security_groups region the injected failure hits. -/
def sgFail : Option FailAt → Option (Nat × Bool)
  | some (.sgSetup r c) => some (r, c)
  | _ => none

/-- Which seed launch the injected failure hits. -/
def seedFail : Option FailAt → Option Nat
  | some (.seedLaunch k) => some k
  | _ => none

/-- Which normal launch the injected failure hits. -/
def normalFail : Option FailAt → Option Nat
  | some (.normalLaunch k) => some k
  | _ => none

/-- The address-allocation stage of the try block (lines 506-511):
private allocation of the head region when internal, public allocation
over all regions otherwise.  A region key appears in the node_ips
mapping only once an address has been appended for it. -/
def cli_alloc (env : CliEnv) (fp : Option FailAt) :
    List (Region × List Addr) × List Event × Option RunError :=
  if env.internal then
    let region0 := env.regions.headD ""
    let hostLists := (env.subnets region0).map (fun s => s.hosts)
    let pres := private_ips_go env.usedIp (allocPrivFail fp) hostLists.length env.cluster_size 0 hostLists
    ((if pres.1 = [] then [] else [(region0, pres.1.map Addr.priv)]),
     ([] : List Event), pres.2)
  else
    allocate_public_ips_go env.pubAlloc env.cluster_size (allocPubFail fp) 0 env.regions

/-- The user-data stage (lines 519-520): generate_taupage_user_data
performs a registry lookup over the network that may raise; it
contributes no event and no rollback state. -/
def cli_userdata_err (fp : Option FailAt) : Option RunError :=
  if fp = some .userData then some (.injected .userData) else none

/-- The try block of cli (lines 503-527): AMI discovery, address
allocation (private or public by the internal flag, lines 506-511),
seed selection (lines 514-515), security-group setup (line 517), user
data generation (lines 519-520), seed launches and normal launches
(lines 522-525).  Each stage stops the run at the injected failure
point, and the accumulated node_ips and security_groups mappings are
exactly what the except handler will see. -/
def cli_body (env : CliEnv) (fp : Option FailAt) : BodyResult :=
  if fp = some .amis then ⟨[], [], [], some (.injected .amis)⟩
  else
    let allocRes := cli_alloc env fp
    let node_ips := allocRes.1
    match allocRes.2.2 with
    | some e => ⟨node_ips, [], allocRes.2.1, some e⟩
    | none =>
      let seed_count := seed_count_of env.cluster_size
      let seed_nodes := pick_seed_node_ips node_ips seed_count
      let sgRes := setup_security_groups env.internal node_ips env.sgIdOf env.bastion (sgFail fp)
      match sgRes.2.2 with
      | some e => ⟨node_ips, sgRes.1, allocRes.2.1 ++ sgRes.2.1, some e⟩
      | none =>
        match cli_userdata_err fp with
        | some e => ⟨node_ips, sgRes.1, allocRes.2.1 ++ sgRes.2.1, some e⟩
        | none =>
          let total := seed_count * env.regions.length
          let seedRes := launch_seed_nodes env.internal seed_nodes env.subnetIds total (seedFail fp)
          match seedRes.2 with
          | some e => ⟨node_ips, sgRes.1, allocRes.2.1 ++ sgRes.2.1 ++ seedRes.1, some e⟩
          | none =>
            let normRes := launch_normal_nodes env.internal node_ips env.subnetIds seed_count (normalFail fp)
            ⟨node_ips, sgRes.1, allocRes.2.1 ++ sgRes.2.1 ++ seedRes.1 ++ normRes.1, normRes.2⟩

/-- The cleanup of the except handler (lines 529-543): delete every
security group of the accumulated mapping (lines 533-536), then — only
when not internal — release the AllocationId of every address of the
accumulated node_ips mapping (lines 538-543).  No instance is ever
terminated. -/
def cli_rollback (internal : Bool) (security_groups : List (Region × String))
    (node_ips : List (Region × List Addr)) : List Event :=
  security_groups.map (fun p => Event.deleteSG p.1 p.2)
  ++ (if internal then []
      else node_ips.flatMap
        (fun p => p.2.map (fun a => Event.releaseAddress p.1 (a.allocationId.getD ""))))

/-- cli (lines 479-545): run the try block; on success report ok, on
any unhandled failure run the cleanup of the except handler and then
re-raise the original error (line 545). -/
def cli (env : CliEnv) (fp : Option FailAt) : List Event × Except RunError Unit :=
  let b := cli_body env fp
  match b.err with
  | none => (b.events, .ok ())
  | some e => (b.events ++ cli_rollback env.internal b.security_groups b.node_ips, .error e)

/-- Whether a rule is a cross-region mesh rule (TCP from a /32 CIDR). -/
def Rule.isMesh : Rule → Bool
  | .tcpFromCidr _ _ _ => true
  | _ => false

/-- Whether a rule is a group-sourced TCP rule — the only form the SSH
rule from the bastion group takes. -/
def Rule.isSsh : Rule → Bool
  | .tcpFromGroup _ _ _ => true
  | _ => false

/-- Sample addresses for concrete evaluations. -/
def addrA : Addr := .priv "10.0.0.11"

/-- Second sample address. -/
def addrB : Addr := .priv "10.0.0.12"

/-- Third sample address. -/
def addrC : Addr := .priv "10.0.0.13"

/-- Fourth sample address. -/
def addrD : Addr := .priv "10.0.0.14"

/-- Sample launch options for concrete evaluations. -/
def sampleOpts : LaunchOptions := { volume_type := "gp2", volume_size := 16, volume_iops := 100 }

/-- A sample image block-device mapping: an EBS root that inherits an
Encrypted key, and one ephemeral volume. -/
def sampleImage : List BlockDevice :=
  [ .ebs "/dev/xvda1" { snapshotId := some "snap-123", volumeSize := some 8, encrypted := some true },
    .ephemeral "/dev/sdb" "ephemeral0" ]

/-- A sample allocate_address responder for concrete evaluations. -/
def sampleAlloc : Region → Nat → Ip × String :=
  fun r i => (r ++ "-ip" ++ toString i, r ++ "-eipalloc" ++ toString i)

/-- A sample in-use query: one address is already held. -/
def sampleUsed : Ip → Bool := fun ip => ip == "10.0.0.10"

/-- Sample host ranges of two subnets, thirteen candidates each. -/
def sampleHosts : List (List Ip) :=
  [(List.range 13).map (fun k => "10.0.0." ++ toString (k + 1)),
   (List.range 13).map (fun k => "10.0.1." ++ toString (k + 1))]

/-- Sample SubnetId listing with two availability zones per region. -/
def sampleSubnetIds : Region → List String := fun _ => ["subnet-a", "subnet-b"]

/-- A sample two-region node_ips mapping of four addresses each. -/
def sampleNodeIps : List (Region × List Addr) :=
  [("eu", [addrA, addrB, addrC, addrD]), ("us", [addrA, addrB, addrC, addrD])]

/-- A sample public-mode provider environment over two regions. -/
def sampleEnv : CliEnv :=
  { regions := ["eu", "us"],
    internal := false,
    cluster_size := 2,
    pubAlloc := sampleAlloc,
    usedIp := sampleUsed,
    subnets := fun r => [⟨r ++ "-subnet-a", []⟩, ⟨r ++ "-subnet-b", []⟩],
    sgIdOf := fun r => "sg-" ++ r,
    bastion := fun _ => Except.error () }


end PlanB

namespace PlanB

/-! Helper lemmas shared by several claim proofs. -/

/-- The loop of sanitize_block_devices leaves the image mapping as it
found it. -/
theorem sanitize_block_devices_snd (l : List BlockDevice) :
    (sanitize_block_devices l).2 = l := by
  induction l with
  | nil => rfl
  | cons bd rest ih => cases bd <;> simp [sanitize_block_devices, ih]

/-- Sanitizing keeps the device names of the image entries. -/
theorem sanitize_block_devices_names (l : List BlockDevice) :
    (sanitize_block_devices l).1.map BlockDevice.deviceName
      = l.map BlockDevice.deviceName := by
  induction l with
  | nil => rfl
  | cons bd rest ih => cases bd <;> simp [sanitize_block_devices, BlockDevice.deviceName, ih]

/-- Every EBS entry of the sanitized list comes from an image EBS entry
with its Encrypted key deleted. -/
theorem sanitize_block_devices_ebs_mem (l : List BlockDevice) (n : String) (e : Ebs)
    (h : BlockDevice.ebs n e ∈ (sanitize_block_devices l).1) :
    ∃ e0, BlockDevice.ebs n e0 ∈ l ∧ e = { e0 with encrypted := none } := by
  induction l with
  | nil => simp [sanitize_block_devices] at h
  | cons bd rest ih =>
    cases bd with
    | ebs n0 e0 =>
      simp only [sanitize_block_devices, List.mem_cons] at h
      rcases h with h | h
      · rw [BlockDevice.ebs.injEq] at h
        exact ⟨e0, by simp [h.1], h.2⟩
      · rcases ih h with ⟨e1, hm, he⟩
        exact ⟨e1, List.mem_cons_of_mem _ hm, he⟩
    | ephemeral n0 v0 =>
      simp only [sanitize_block_devices, List.mem_cons] at h
      rcases h with h | h
      · exact absurd h (by simp)
      · rcases ih h with ⟨e1, hm, he⟩
        exact ⟨e1, List.mem_cons_of_mem _ hm, he⟩
    | noDevice n0 =>
      simp only [sanitize_block_devices, List.mem_cons] at h
      rcases h with h | h
      · exact absurd h (by simp)
      · rcases ih h with ⟨e1, hm, he⟩
        exact ⟨e1, List.mem_cons_of_mem _ hm, he⟩

/-- No sanitized entry is an ephemeral device. -/
theorem sanitize_block_devices_no_ephemeral (l : List BlockDevice) :
    ∀ bd ∈ (sanitize_block_devices l).1, bd.isEphemeral = false := by
  induction l with
  | nil => simp [sanitize_block_devices]
  | cons bd rest ih =>
    intro x hx
    cases bd <;>
      · simp only [sanitize_block_devices, List.mem_cons] at hx
        rcases hx with hx | hx
        · simp [hx, BlockDevice.isEphemeral]
        · exact ih x hx

/-- Every ephemeral image entry is replaced by a NoDevice marker under
the same device name. -/
theorem sanitize_block_devices_ephemeral (l : List BlockDevice) (n v : String)
    (h : BlockDevice.ephemeral n v ∈ l) :
    BlockDevice.noDevice n ∈ (sanitize_block_devices l).1 := by
  induction l with
  | nil => simp at h
  | cons bd rest ih =>
    rcases List.mem_cons.mp h with heq | hmem
    · subst heq
      simp [sanitize_block_devices]
    · cases bd <;>
        · simp only [sanitize_block_devices, List.mem_cons]
          exact Or.inr (ih hmem)

/-- Every EBS-backed image entry appears in the sanitized list under
the same device name with its Encrypted key removed. -/
theorem sanitize_block_devices_ebs_contained (l : List BlockDevice) (n : String) (e0 : Ebs)
    (h : BlockDevice.ebs n e0 ∈ l) :
    BlockDevice.ebs n { e0 with encrypted := none } ∈ (sanitize_block_devices l).1 := by
  induction l with
  | nil => simp at h
  | cons bd rest ih =>
    rcases List.mem_cons.mp h with heq | hmem
    · subst heq
      simp [sanitize_block_devices]
    · cases bd <;>
        · simp only [sanitize_block_devices, List.mem_cons]
          exact Or.inr (ih hmem)

/-- With no injected failure, the region loop of setup_security_groups
processes every region of the mapping: the result holds one group per
region, the trace holds one createSG and one authorizeIngress call per
region carrying the assembled rule list, and no failure occurs. -/
theorem setup_security_groups_go_none (internal : Bool)
    (all_node_ips : List (Region × List Addr)) (sgIdOf : Region → String)
    (bastion : Region → Except Unit String) :
    ∀ (l : List (Region × List Addr)) (rIdx : Nat),
      (setup_security_groups_go internal all_node_ips sgIdOf bastion none rIdx l).1
        = l.map (fun p => (p.1, sgIdOf p.1)) ∧
      (setup_security_groups_go internal all_node_ips sgIdOf bastion none rIdx l).2.1
        = l.flatMap (fun p => [Event.createSG p.1 (sgIdOf p.1),
            Event.authorizeIngress p.1 (sgIdOf p.1)
              (region_ip_permissions internal all_node_ips (sgIdOf p.1) (bastion p.1))]) ∧
      (setup_security_groups_go internal all_node_ips sgIdOf bastion none rIdx l).2.2 = none := by
  intro l
  induction l with
  | nil => intro rIdx; exact ⟨rfl, rfl, rfl⟩
  | cons p rest ih =>
    intro rIdx
    obtain ⟨r, ips⟩ := p
    have h := ih (rIdx + 1)
    simp [setup_security_groups_go, h.1, h.2.1, h.2.2]

/-- Filtering the per-region createSG/authorizeIngress pairs keeps
exactly the authorization calls. -/
theorem filter_authorize_pairs (internal : Bool)
    (all_node_ips : List (Region × List Addr)) (sgIdOf : Region → String)
    (bastion : Region → Except Unit String) (l : List (Region × List Addr)) :
    (l.flatMap (fun p => [Event.createSG p.1 (sgIdOf p.1),
        Event.authorizeIngress p.1 (sgIdOf p.1)
          (region_ip_permissions internal all_node_ips (sgIdOf p.1) (bastion p.1))])).filter
        Event.isAuthorize
      = l.map (fun p => Event.authorizeIngress p.1 (sgIdOf p.1)
          (region_ip_permissions internal all_node_ips (sgIdOf p.1) (bastion p.1))) := by
  induction l with
  | nil => rfl
  | cons p rest ih => simp [Event.isAuthorize, ih]

/-- C7: when internal mode is false the rule list of every region holds
one mesh rule on the internal cluster port per node address across all
regions — so the mesh rules number exactly the total node count — plus
exactly one self-referential all-protocol rule, and each region gets a
single ingress-authorization call carrying the whole list. -/
theorem setup_security_groups_mesh_rules (node_ips : List (Region × List Addr))
    (sgIdOf : Region → String) (bastion : Region → Except Unit String)
    (sg : String) (b : Except Unit String) :
    ((setup_security_groups false node_ips sgIdOf bastion none).2.1.filter Event.isAuthorize
      = node_ips.map (fun p => Event.authorizeIngress p.1 (sgIdOf p.1)
          (region_ip_permissions false node_ips (sgIdOf p.1) (bastion p.1)))) ∧
    ((region_ip_permissions false node_ips sg b).filter Rule.isMesh
      = (node_ips.flatMap (fun p => p.2)).map
          (fun a => Rule.tcpFromCidr 7001 7001 ((a.publicIp.getD "") ++ "/32"))) ∧
    ((region_ip_permissions false node_ips sg b).countP Rule.isMesh
      = (node_ips.flatMap (fun p => p.2)).length) ∧
    ((region_ip_permissions false node_ips sg b).countP
        (fun ru => ru == Rule.allFromGroup sg) = 1) ∧
    ((setup_security_groups false node_ips sgIdOf bastion none).2.2 = none) := by
  have hgo := setup_security_groups_go_none false node_ips sgIdOf bastion node_ips 0
  have hmesh : (region_ip_permissions false node_ips sg b).filter Rule.isMesh
      = (node_ips.flatMap (fun p => p.2)).map
          (fun a => Rule.tcpFromCidr 7001 7001 ((a.publicIp.getD "") ++ "/32")) := by
    rw [region_ip_permissions.eq_def]
    simp only [if_neg (by simp : ¬ (false = true)), List.filter_append]
    have h1 : ((node_ips.flatMap (fun p => p.2)).map
        (fun a => Rule.tcpFromCidr 7001 7001 ((a.publicIp.getD "") ++ "/32"))).filter Rule.isMesh
        = (node_ips.flatMap (fun p => p.2)).map
          (fun a => Rule.tcpFromCidr 7001 7001 ((a.publicIp.getD "") ++ "/32")) := by
      rw [List.filter_eq_self]
      intro a ha
      rcases List.mem_map.mp ha with ⟨x, _, hx⟩
      rw [← hx]; rfl
    have h2 : ([Rule.allFromGroup sg] : List Rule).filter Rule.isMesh = [] := rfl
    have h3 : (match b with
        | .ok g => [Rule.tcpFromGroup 22 22 g]
        | .error _ => ([] : List Rule)).filter Rule.isMesh = [] := by
      cases b <;> rfl
    rw [h1, h2, h3]
    simp
  refine ⟨?_, hmesh, ?_, ?_, ?_⟩
  · rw [setup_security_groups, hgo.2.1]
    exact filter_authorize_pairs false node_ips sgIdOf bastion node_ips
  · rw [List.countP_eq_length_filter, hmesh, List.length_map]
  · rw [region_ip_permissions.eq_def]
    simp only [if_neg (by simp : ¬ (false = true)), List.countP_append]
    have h1 : ((node_ips.flatMap (fun p => p.2)).map
        (fun a => Rule.tcpFromCidr 7001 7001 ((a.publicIp.getD "") ++ "/32"))).countP
        (fun ru => ru == Rule.allFromGroup sg) = 0 := by
      rw [List.countP_eq_zero]
      intro a ha
      rcases List.mem_map.mp ha with ⟨x, _, hx⟩
      rw [← hx]
      simp
    have h2 : ([Rule.allFromGroup sg] : List Rule).countP
        (fun ru => ru == Rule.allFromGroup sg) = 1 := by simp
    have h3 : (match b with
        | .ok g => [Rule.tcpFromGroup 22 22 g]
        | .error _ => ([] : List Rule)).countP (fun ru => ru == Rule.allFromGroup sg) = 0 := by
      cases b <;> simp
    rw [h1, h2, h3]
  · rw [setup_security_groups]
    exact hgo.2.2

/-- C8: the bastion lookup is the single tolerated error of the
Firewall Configurator: the stage succeeds for every bastion lookup
outcome, the rule list under a failed lookup is exactly the
successful-lookup list minus its final SSH rule (every other rule is
still applied), and no group-sourced TCP rule remains when the lookup
fails while the SSH rule from the bastion group is present when it
succeeds. -/
theorem setup_security_groups_bastion_best_effort (internal : Bool)
    (node_ips : List (Region × List Addr)) (sgIdOf : Region → String)
    (bastion : Region → Except Unit String) (sg g : String) :
    ((setup_security_groups internal node_ips sgIdOf bastion none).2.2 = none) ∧
    (region_ip_permissions internal node_ips sg (.ok g)
      = region_ip_permissions internal node_ips sg (.error ()) ++ [Rule.tcpFromGroup 22 22 g]) ∧
    (Rule.tcpFromGroup 22 22 g ∈ region_ip_permissions internal node_ips sg (.ok g)) ∧
    ((region_ip_permissions internal node_ips sg (.error ())).countP Rule.isSsh = 0) := by
  refine ⟨?_, ?_, ?_, ?_⟩
  · rw [setup_security_groups]
    exact (setup_security_groups_go_none internal node_ips sgIdOf bastion node_ips 0).2.2
  · rw [region_ip_permissions, region_ip_permissions]
    simp
  · rw [region_ip_permissions]
    simp
  · rw [region_ip_permissions]
    simp only [List.countP_append]
    have h1 : (if internal then ([] : List Rule)
        else (node_ips.flatMap (fun p => p.2)).map
          (fun a => Rule.tcpFromCidr 7001 7001 ((a.publicIp.getD "") ++ "/32"))).countP
        Rule.isSsh = 0 := by
      cases internal with
      | true => simp
      | false =>
        rw [List.countP_eq_zero]
        intro a ha
        rw [if_neg (by simp : ¬ ((false : Bool) = true))] at ha
        rcases List.mem_map.mp ha with ⟨x, _, hx⟩
        rw [← hx]; simp [Rule.isSsh]
    rw [h1]
    rfl

/-- The inner scan returns the first candidate the provider reports
free: the scanned list splits as the all-in-use takeWhile prefix, then
the chosen address, then the rest the iterator will resume from. -/
theorem findFreeIp_some (used : Ip → Bool) :
    ∀ (l rest : List Ip) (ip : Ip), findFreeIp used l = some (ip, rest) →
      l = l.takeWhile used ++ ip :: rest ∧ used ip = false ∧ ip ∈ l ∧ rest.Sublist l := by
  intro l
  induction l with
  | nil => intro rest ip h; simp [findFreeIp] at h
  | cons x t ih =>
    intro rest ip h
    rw [findFreeIp] at h
    by_cases hx : used x
    · rw [if_pos hx] at h
      rcases ih rest ip h with ⟨hdec, hfree, hmem, hsub⟩
      refine ⟨?_, hfree, List.mem_cons_of_mem _ hmem, hsub.trans (List.sublist_cons_self x t)⟩
      rw [List.takeWhile_cons_of_pos hx]
      simpa using hdec
    · rw [if_neg hx] at h
      simp only [Option.some.injEq, Prod.mk.injEq] at h
      obtain ⟨hip, hrest⟩ := h
      subst hip
      subst hrest
      refine ⟨?_, by simpa using hx, List.mem_cons_self _ _, List.sublist_cons_self _ _⟩
      rw [List.takeWhile_cons_of_neg hx]
      rfl

/-- A scan over candidates that are all in use finds nothing. -/
theorem findFreeIp_eq_none (used : Ip → Bool) :
    ∀ l : List Ip, (∀ ip ∈ l, used ip = true) → findFreeIp used l = none := by
  intro l
  induction l with
  | nil => intro _; rfl
  | cons x t ih =>
    intro h
    rw [findFreeIp, if_pos (h x (List.mem_cons_self x t))]
    exact ih (fun ip hip => h ip (List.mem_cons_of_mem x hip))

/-- C6: the private-mode address scan cannot run forever — the host
range of a subnet is finite, and when every candidate of the scanned
subnet is reported in use the allocator stops with the explicit
address-exhaustion failure (the StopIteration escaping the saturated
iterator) instead of looping. -/
theorem allocate_private_ips_exhaustion (used : Ip → Bool) (cluster_size : Nat)
    (hostsPerSubnet : List (List Ip))
    (hcs : 1 ≤ cluster_size)
    (hsat : ∀ l ∈ hostsPerSubnet, ∀ ip ∈ l, used ip = true) :
    (allocate_private_ips used cluster_size hostsPerSubnet).2 = some RunError.addressExhausted ∧
    (allocate_private_ips used cluster_size hostsPerSubnet).1 = [] := by
  have hgetD : ∀ j : Nat, ∀ ip ∈ hostsPerSubnet.getD j [], used ip = true := by
    intro j ip hip
    by_cases hj : j < hostsPerSubnet.length
    · rw [List.getD_eq_getElem hostsPerSubnet [] hj] at hip
      exact hsat _ (List.getElem_mem hj) ip hip
    · rw [List.getD_eq_default hostsPerSubnet [] (Nat.le_of_not_lt hj)] at hip
      simp at hip
  have hstep : private_ip_step used hostsPerSubnet.length 0 hostsPerSubnet = none := by
    rw [private_ip_step]
    have hnone : findFreeIp used
        (if 0 < hostsPerSubnet.length
          then (hostsPerSubnet.getD (0 % hostsPerSubnet.length) []).drop 10
          else hostsPerSubnet.getD (0 % hostsPerSubnet.length) []) = none := by
      apply findFreeIp_eq_none
      intro ip hip
      by_cases h0 : 0 < hostsPerSubnet.length
      · rw [if_pos h0] at hip
        exact hgetD _ ip (List.mem_of_mem_drop hip)
      · rw [if_neg h0] at hip
        exact hgetD _ ip hip
    simp only [hnone]
  obtain ⟨k, rfl⟩ : ∃ k, cluster_size = k + 1 :=
    ⟨cluster_size - 1, by omega⟩
  rw [allocate_private_ips, private_ips_go]
  simp [hstep]

/-- C6 witness: a one-node request against a fully saturated subnet
fails with address exhaustion and returns no address. -/
theorem allocate_private_ips_exhaustion_witness :
    (allocate_private_ips (fun _ => true) 1 [["10.0.0.1", "10.0.0.2"]]).2
      = some RunError.addressExhausted ∧
    (allocate_private_ips (fun _ => true) 1 [["10.0.0.1", "10.0.0.2"]]).1 = [] :=
  allocate_private_ips_exhaustion (fun _ => true) 1 [["10.0.0.1", "10.0.0.2"]]
    (by decide) (fun _ _ _ _ => rfl)

/-- Claim C3, as stated, fails: at cluster size 3 with a three-address
region, pick_seed_node_ips returns the entire address list of the
region, which is a prefix of that list but not a strict one. -/
theorem pick_seed_node_ips_not_strict_counterexample :
    pick_seed_node_ips [("eu", [addrA, addrB, addrC])] (seed_count_of 3)
      = [("eu", [addrA, addrB, addrC])] ∧
    ¬ ([addrA, addrB, addrC] ≠ [addrA, addrB, addrC]) :=
  ⟨rfl, by simp⟩

/-- C3 (amended): seed_count equals min(cluster_size, 3); the Topology
Planner maps every region list to its first seed_count elements, a
prefix of that list in original order, which is a strict prefix exactly
when seed_count is below the length of the list; an empty input yields
an empty seed set. -/
theorem pick_seed_node_ips_spec (cluster_size k : Nat)
    (node_ips : List (Region × List Addr)) (p : Region × List Addr)
    (hp : p ∈ node_ips) (hk : k < p.2.length) :
    seed_count_of cluster_size = min cluster_size 3 ∧
    pick_seed_node_ips node_ips k = node_ips.map (fun q => (q.1, q.2.take k)) ∧
    (p.1, p.2.take k) ∈ pick_seed_node_ips node_ips k ∧
    p.2.take k <+: p.2 ∧
    p.2.take k ≠ p.2 ∧
    pick_seed_node_ips [] k = [] := by
  refine ⟨rfl, rfl, List.mem_map.mpr ⟨p, hp, rfl⟩,
    ⟨p.2.drop k, List.take_append_drop k p.2⟩, ?_, rfl⟩
  intro hEq
  have hlen := congrArg List.length hEq
  rw [List.length_take] at hlen
  omega

/-- C3 witness: the amended statement evaluated on one region with four
addresses and seed count 3. -/
theorem pick_seed_node_ips_spec_witness :
    seed_count_of 5 = min 5 3 ∧
    pick_seed_node_ips [("eu", [addrA, addrB, addrC, addrD])] 3
      = [("eu", [addrA, addrB, addrC, addrD])].map (fun q => (q.1, q.2.take 3)) ∧
    ("eu", [addrA, addrB, addrC, addrD].take 3)
      ∈ pick_seed_node_ips [("eu", [addrA, addrB, addrC, addrD])] 3 ∧
    [addrA, addrB, addrC, addrD].take 3 <+: [addrA, addrB, addrC, addrD] ∧
    [addrA, addrB, addrC, addrD].take 3 ≠ [addrA, addrB, addrC, addrD] ∧
    pick_seed_node_ips [] 3 = [] :=
  pick_seed_node_ips_spec 5 3 [("eu", [addrA, addrB, addrC, addrD])]
    ("eu", [addrA, addrB, addrC, addrD]) (by simp) (by decide)

/-- C9: the submitted block-device list has exactly one entry at the
fixed path /dev/xvdf, that entry is the data EBS volume with
Encrypted true, DeleteOnTermination false, size and type from options
and Iops only for io1; every other EBS entry is an image entry with its
inherited Encrypted key removed, and conversely every EBS-backed image
entry appears in the submitted list with its Encrypted key removed; and
no ephemeral image volume appears as an attached device — each is
replaced by a NoDevice marker. -/
theorem build_block_devices_spec (opts : LaunchOptions) (img : List BlockDevice)
    (hx : ∀ bd ∈ img, bd.deviceName ≠ "/dev/xvdf") :
    ((build_block_devices opts img).1.countP (fun bd => bd.deviceName == "/dev/xvdf") = 1) ∧
    BlockDevice.ebs "/dev/xvdf" (data_ebs opts) ∈ (build_block_devices opts img).1 ∧
    (data_ebs opts).encrypted = some true ∧
    (data_ebs opts).deleteOnTermination = some false ∧
    (data_ebs opts).volumeSize = some opts.volume_size ∧
    (data_ebs opts).volumeType = some opts.volume_type ∧
    (data_ebs opts).iops = (if opts.volume_type = "io1" then some opts.volume_iops else none) ∧
    (∀ n e, BlockDevice.ebs n e ∈ (build_block_devices opts img).1 → n ≠ "/dev/xvdf" →
       ∃ e0, BlockDevice.ebs n e0 ∈ img ∧ e = { e0 with encrypted := none } ∧
         e.encrypted = none) ∧
    (∀ bd ∈ (build_block_devices opts img).1, bd.isEphemeral = false) ∧
    (∀ n v, BlockDevice.ephemeral n v ∈ img →
       BlockDevice.noDevice n ∈ (build_block_devices opts img).1) ∧
    (∀ n e0, BlockDevice.ebs n e0 ∈ img →
       BlockDevice.ebs n { e0 with encrypted := none } ∈ (build_block_devices opts img).1) := by
  have hnames : ∀ bd ∈ (sanitize_block_devices img).1, bd.deviceName ≠ "/dev/xvdf" := by
    intro bd hbd
    have : bd.deviceName ∈ (sanitize_block_devices img).1.map BlockDevice.deviceName :=
      List.mem_map.mpr ⟨bd, hbd, rfl⟩
    rw [sanitize_block_devices_names] at this
    rcases List.mem_map.mp this with ⟨bd0, hbd0, hname⟩
    rw [← hname]
    exact hx bd0 hbd0
  refine ⟨?_, ?_, ?_, ?_, ?_, ?_, ?_, ?_, ?_, ?_, ?_⟩
  · rw [build_block_devices]
    simp only [List.countP_append]
    have h0 : (sanitize_block_devices img).1.countP (fun bd => bd.deviceName == "/dev/xvdf") = 0 := by
      rw [List.countP_eq_zero]
      intro bd hbd
      simpa using hnames bd hbd
    rw [h0]
    simp [List.countP_cons, BlockDevice.deviceName]
  · simp [build_block_devices]
  · rw [data_ebs]; split <;> rfl
  · rw [data_ebs]; split <;> rfl
  · rw [data_ebs]; split <;> rfl
  · rw [data_ebs]; split <;> rfl
  · rw [data_ebs]; split <;> rfl
  · intro n e hmem hne
    rw [build_block_devices] at hmem
    rcases List.mem_append.mp hmem with hmem | hmem
    · rcases sanitize_block_devices_ebs_mem img n e hmem with ⟨e0, hm0, he0⟩
      refine ⟨e0, hm0, he0, ?_⟩
      rw [he0]
    · simp only [List.mem_singleton, BlockDevice.ebs.injEq] at hmem
      exact absurd hmem.1 hne
  · intro bd hbd
    rw [build_block_devices] at hbd
    rcases List.mem_append.mp hbd with hbd | hbd
    · exact sanitize_block_devices_no_ephemeral img bd hbd
    · simp only [List.mem_singleton] at hbd
      simp [hbd, BlockDevice.isEphemeral]
  · intro n v hmem
    rw [build_block_devices]
    exact List.mem_append.mpr (Or.inl (sanitize_block_devices_ephemeral img n v hmem))
  · intro n e0 hmem
    rw [build_block_devices]
    exact List.mem_append.mpr (Or.inl (sanitize_block_devices_ebs_contained img n e0 hmem))

/-- C9 witness: evaluation on a sample image with an encrypted EBS root
and one ephemeral volume. -/
theorem build_block_devices_spec_witness :
    ((build_block_devices sampleOpts sampleImage).1.countP
        (fun bd => bd.deviceName == "/dev/xvdf") = 1) ∧
    BlockDevice.ebs "/dev/xvdf" (data_ebs sampleOpts) ∈ (build_block_devices sampleOpts sampleImage).1 ∧
    (data_ebs sampleOpts).encrypted = some true ∧
    (data_ebs sampleOpts).deleteOnTermination = some false ∧
    BlockDevice.ebs "/dev/xvda1" { snapshotId := some "snap-123", volumeSize := some 8 }
      ∈ (build_block_devices sampleOpts sampleImage).1 := by
  have hx : ∀ bd ∈ sampleImage, bd.deviceName ≠ "/dev/xvdf" := by decide
  have h := build_block_devices_spec sampleOpts sampleImage hx
  refine ⟨h.1, h.2.1, h.2.2.1, h.2.2.2.1, ?_⟩
  exact h.2.2.2.2.2.2.2.2.2.2 "/dev/xvda1"
    { snapshotId := some "snap-123", volumeSize := some 8, encrypted := some true } (by decide)

/-- With no injected failure, the per-region public allocation loop
returns the responses of allocations 0 to cluster_size - 1 in request
order and no failure. -/
theorem alloc_region_go_none (alloc : Region → Nat → Ip × String) (r : Region) (ri : Nat) :
    ∀ (k i : Nat),
      (alloc_region_go alloc r ri none k i).1
        = (List.range' i k).map (fun j => Addr.pub (alloc r j).1 (alloc r j).2) ∧
      (alloc_region_go alloc r ri none k i).2.2 = none := by
  intro k
  induction k with
  | zero => intro i; exact ⟨rfl, rfl⟩
  | succ m ih =>
    intro i
    have h := ih (i + 1)
    rw [alloc_region_go]
    simp only [if_neg (by simp : ¬ ((none : Option (Nat × Nat)) = some (ri, i)))]
    rw [List.range'_succ]
    simp [h.1, h.2]

/-- With no injected failure and a positive cluster size, the public
allocator fills every region of the regions list in order. -/
theorem allocate_public_ips_go_none (alloc : Region → Nat → Ip × String)
    (cluster_size : Nat) (hcs : 1 ≤ cluster_size) :
    ∀ (regions : List Region) (ri : Nat),
      (allocate_public_ips_go alloc cluster_size none ri regions).1
        = regions.map (fun r => (r, (List.range' 0 cluster_size).map
            (fun j => Addr.pub (alloc r j).1 (alloc r j).2))) ∧
      (allocate_public_ips_go alloc cluster_size none ri regions).2.2 = none := by
  intro regions
  induction regions with
  | nil => intro ri; exact ⟨rfl, rfl⟩
  | cons r rs ih =>
    intro ri
    have hr := alloc_region_go_none alloc r ri cluster_size 0
    have hne : (alloc_region_go alloc r ri none cluster_size 0).1 ≠ [] := by
      rw [hr.1]
      have : (List.range' 0 cluster_size).length = cluster_size := List.length_range' 0 1 cluster_size
      intro hcontra
      have := congrArg List.length hcontra
      simp [List.length_range'] at this
      omega
    have hrest := ih (ri + 1)
    rw [allocate_public_ips_go]
    simp only [hr.2, if_neg hne]
    simp [hr.1, hrest.1, hrest.2]

/-- Setting a subnet iterator to a sublist of its current value keeps
the combined flatten a sublist of the previous one. -/
theorem flatten_set_sublist (l : List Ip) :
    ∀ (state : List (List Ip)) (j : Nat), l.Sublist (state.getD j []) →
      (state.set j l).flatten.Sublist state.flatten := by
  intro state
  induction state with
  | nil => intro j _; simp
  | cons s tl ih =>
    intro j hj
    cases j with
    | zero =>
      simp only [List.getD_cons_zero] at hj
      simp only [List.set_cons_zero, List.flatten_cons]
      exact List.Sublist.append hj (List.Sublist.refl _)
    | succ m =>
      simp only [List.getD_cons_succ] at hj
      simp only [List.set_cons_succ, List.flatten_cons]
      exact List.Sublist.append (List.Sublist.refl _) (ih m hj)

/-- After storing the rest of a scanned iterator, the chosen address no
longer occurs anywhere in the iterator state, provided the joint host
pool had no duplicates. -/
theorem flatten_set_not_mem (ip : Ip) :
    ∀ (state : List (List Ip)) (j : Nat) (rest : List Ip),
      state.flatten.Nodup → j < state.length →
      (∃ pre, state.getD j [] = pre ++ ip :: rest) →
      ip ∉ (state.set j rest).flatten := by
  intro state
  induction state with
  | nil => intro j rest _ hj _; simp at hj
  | cons s tl ih =>
    intro j rest hnd hj hsplit
    rcases List.nodup_append.mp (by simpa using hnd) with ⟨hs, htl, hdisj⟩
    cases j with
    | zero =>
      rcases hsplit with ⟨pre, hpre⟩
      simp only [List.getD_cons_zero] at hpre
      simp only [List.set_cons_zero, List.flatten_cons, List.mem_append]
      have hipmem : ip ∈ s := by rw [hpre]; simp
      have hipnotrest : ip ∉ rest := by
        have hsub : (ip :: rest).Sublist s := by
          rw [hpre]; exact List.sublist_append_right pre (ip :: rest)
        have := hsub.nodup hs
        exact (List.nodup_cons.mp this).1
      exact fun hcontra => hcontra.elim hipnotrest (fun h => hdisj hipmem h)
    | succ m =>
      rcases hsplit with ⟨pre, hpre⟩
      simp only [List.getD_cons_succ] at hpre
      have hmlt : m < tl.length := by simpa using hj
      have hipintl : ip ∈ tl.flatten := by
        have : ip ∈ tl.getD m [] := by rw [hpre]; simp
        rw [List.getD_eq_getElem tl [] hmlt] at this
        exact List.mem_flatten.mpr ⟨tl[m], List.getElem_mem hmlt, this⟩
      simp only [List.set_cons_succ, List.flatten_cons, List.mem_append]
      intro hcontra
      rcases hcontra with h | h
      · exact hdisj.symm hipintl h
      · exact ih m rest htl hmlt ⟨pre, hpre⟩ h

/-- What one successful step of the private scan guarantees: the chosen
address is free, it came from the joint host pool, the iterator state
keeps its shape, shrinks as a sublist, and — when the pool has no
duplicates — no longer contains the chosen address. -/
theorem private_ip_step_some_facts (used : Ip → Bool) (n i : Nat)
    (state : List (List Ip)) (ip : Ip) (state' : List (List Ip))
    (h : private_ip_step used n i state = some (ip, state')) :
    used ip = false ∧ state'.length = state.length ∧
    ip ∈ state.flatten ∧ state'.flatten.Sublist state.flatten ∧
    (state.flatten.Nodup → ip ∉ state'.flatten) := by
  rw [private_ip_step] at h
  rcases hf : findFreeIp used
      (if i < n then (state.getD (i % n) []).drop 10 else state.getD (i % n) []) with _ | q
  · rw [hf] at h; simp at h
  · rw [hf] at h
    obtain ⟨qip, qrest⟩ := q
    simp only [Option.some.injEq, Prod.mk.injEq] at h
    obtain ⟨hip, hstate⟩ := h
    rw [hip] at hf
    rcases findFreeIp_some used _ qrest ip hf with ⟨hdec, hfree, hmem, hsub⟩
    set hosts : List Ip :=
      if i < n then (state.getD (i % n) []).drop 10 else state.getD (i % n) [] with hhosts
    have hhosts_sub : hosts.Sublist (state.getD (i % n) []) := by
      rw [hhosts]
      by_cases hlt : i < n
      · rw [if_pos hlt]; exact List.drop_sublist 10 _
      · rw [if_neg hlt]
    have hmem0 : ip ∈ state.getD (i % n) [] := hhosts_sub.mem hmem
    have hjlt : i % n < state.length := by
      by_contra hge
      rw [List.getD_eq_default state [] (Nat.le_of_not_lt hge)] at hmem0
      simp at hmem0
    have hmemflat : ip ∈ state.flatten := by
      rw [List.getD_eq_getElem state [] hjlt] at hmem0
      exact List.mem_flatten.mpr ⟨state[i % n], List.getElem_mem hjlt, hmem0⟩
    have hrest_sub : qrest.Sublist (state.getD (i % n) []) := hsub.trans hhosts_sub
    have hsplit : ∃ pre, state.getD (i % n) [] = pre ++ ip :: qrest := by
      by_cases hlt : i < n
      · refine ⟨(state.getD (i % n) []).take 10 ++ hosts.takeWhile used, ?_⟩
        rw [List.append_assoc, ← hdec, hhosts, if_pos hlt, List.take_append_drop]
      · refine ⟨hosts.takeWhile used, ?_⟩
        rw [← hdec, hhosts, if_neg hlt]
    subst hstate
    refine ⟨hfree, List.length_set state _ _, hmemflat,
      flatten_set_sublist qrest state (i % n) hrest_sub, ?_⟩
    intro hnd
    exact flatten_set_not_mem ip state (i % n) qrest hnd hjlt hsplit

/-- The invariant of the private allocation loop: with no injected
failure every returned address is free, the count matches the request
on success, every address comes from the joint host pool, and a
duplicate-free pool yields duplicate-free results. -/
theorem private_ips_go_invariant (used : Ip → Bool) (n : Nat) :
    ∀ (k i : Nat) (state : List (List Ip)),
      ((private_ips_go used none n k i state).2 = none →
        (private_ips_go used none n k i state).1.length = k) ∧
      (∀ ip ∈ (private_ips_go used none n k i state).1, used ip = false) ∧
      (∀ ip ∈ (private_ips_go used none n k i state).1, ip ∈ state.flatten) ∧
      (state.flatten.Nodup → (private_ips_go used none n k i state).1.Nodup) := by
  intro k
  induction k with
  | zero =>
    intro i state
    exact ⟨fun _ => rfl, by simp [private_ips_go], by simp [private_ips_go],
      fun _ => by simp [private_ips_go]⟩
  | succ m ih =>
    intro i state
    rw [private_ips_go]
    simp only [if_neg (by simp : ¬ ((none : Option Nat) = some i))]
    rcases hstep : private_ip_step used n i state with _ | q
    · exact ⟨fun hcontra => by simp at hcontra, by simp, by simp, fun _ => by simp⟩
    · obtain ⟨ip, state'⟩ := q
      rcases private_ip_step_some_facts used n i state ip state' hstep
        with ⟨hfree, _, hmemflat, hflat_sub, hnotmem⟩
      have hr := ih (i + 1) state'
      simp only
      refine ⟨?_, ?_, ?_, ?_⟩
      · intro herr
        simp only [List.length_cons]
        rw [hr.1 herr]
      · intro x hx
        rcases List.mem_cons.mp hx with hx | hx
        · rw [hx]; exact hfree
        · exact hr.2.1 x hx
      · intro x hx
        rcases List.mem_cons.mp hx with hx | hx
        · rw [hx]; exact hmemflat
        · exact hflat_sub.mem (hr.2.2.1 x hx)
      · intro hnd
        rw [List.nodup_cons]
        refine ⟨fun hcontra => hnotmem hnd (hr.2.2.1 ip hcontra), ?_⟩
        exact hr.2.2.2 (hflat_sub.nodup hnd)

/-- C4: the Address Allocator returns exactly cluster_size addresses
per region in allocation index order (public mode, for every region of
the run), and in private mode every returned address is one the
provider reported free, the returned addresses are pairwise distinct
whenever the subnets carry no duplicate host addresses, and exactly
cluster_size of them are returned on success. -/
theorem address_allocator_contract :
    (∀ (alloc : Region → Nat → Ip × String) (regions : List Region) (cluster_size : Nat),
      1 ≤ cluster_size →
      ((allocate_public_ips alloc cluster_size regions).2.2 = none ∧
       (allocate_public_ips alloc cluster_size regions).1.map Prod.fst = regions ∧
       (∀ p ∈ (allocate_public_ips alloc cluster_size regions).1,
          p.2.length = cluster_size ∧
          ∀ i, i < cluster_size → p.2.getD i (Addr.priv "")
            = Addr.pub (alloc p.1 i).1 (alloc p.1 i).2))) ∧
    (∀ (used : Ip → Bool) (cluster_size : Nat) (hostsPerSubnet : List (List Ip)),
      (allocate_private_ips used cluster_size hostsPerSubnet).2 = none →
      ((allocate_private_ips used cluster_size hostsPerSubnet).1.length = cluster_size ∧
       (∀ ip ∈ (allocate_private_ips used cluster_size hostsPerSubnet).1, used ip = false) ∧
       (hostsPerSubnet.flatten.Nodup →
         (allocate_private_ips used cluster_size hostsPerSubnet).1.Nodup))) := by
  constructor
  · intro alloc regions cluster_size hcs
    have hgo := allocate_public_ips_go_none alloc cluster_size hcs regions 0
    rw [allocate_public_ips]
    refine ⟨hgo.2, ?_, ?_⟩
    · rw [hgo.1, List.map_map]
      exact List.map_id _
    · intro p hp
      rw [hgo.1] at hp
      rcases List.mem_map.mp hp with ⟨r, _, hr⟩
      subst hr
      constructor
      · simp [List.length_range']
      · intro i hi
        have hlen : i < ((List.range' 0 cluster_size).map
            (fun j => Addr.pub (alloc r j).1 (alloc r j).2)).length := by
          simp [List.length_range']
          omega
        rw [List.getD_eq_getElem _ _ hlen]
        simp only [List.getElem_map, List.getElem_range']
        simp
  · intro used cluster_size hostsPerSubnet herr
    have h := private_ips_go_invariant used hostsPerSubnet.length cluster_size 0 hostsPerSubnet
    exact ⟨h.1 herr, h.2.1, h.2.2.2⟩

/-- C4 witness: a two-region public run of size two, and a private run
of size three over two clean subnets. -/
theorem address_allocator_contract_witness :
    (allocate_public_ips sampleAlloc 2 ["eu", "us"]).2.2 = none ∧
    (allocate_public_ips sampleAlloc 2 ["eu", "us"]).1.map Prod.fst = ["eu", "us"] ∧
    (allocate_private_ips sampleUsed 3 sampleHosts).1.length = 3 ∧
    (allocate_private_ips sampleUsed 3 sampleHosts).1.Nodup := by
  have hpub := address_allocator_contract.1 sampleAlloc ["eu", "us"] 2 (by decide)
  have hpriv := address_allocator_contract.2 sampleUsed 3 sampleHosts (by decide)
  exact ⟨hpub.1, hpub.2.1, hpriv.1, hpriv.2.2 (by decide)⟩

/-- C10: the block-device computation of launch_instance never mutates
the image descriptor: the Encrypted key is deleted from a deep copy
only, so the image block_device_mappings are identical before and after
any number of launches. -/
theorem build_block_devices_preserves_image (opts : LaunchOptions)
    (img : List BlockDevice) (n : Nat) :
    (build_block_devices opts img).2 = img ∧
    (fun l => (build_block_devices opts l).2)^[n] img = img := by
  have h : ∀ l : List BlockDevice, (build_block_devices opts l).2 = l := by
    intro l
    simp [build_block_devices, sanitize_block_devices_snd]
  refine ⟨h img, ?_⟩
  induction n with
  | zero => rfl
  | succ m ih => rw [Function.iterate_succ_apply, h img, ih]

/-- Filtering a seed-launch trace keeps exactly the run_instances
calls, one per schedule entry, each into subnet index i mod the number
of subnets of its region. -/
theorem launch_seeds_go_filter (internal : Bool) (subnetIds : Region → List String)
    (total : Nat) :
    ∀ (sched : List (Region × Nat × Addr)) (launched : Nat),
      (launch_seeds_go internal subnetIds total none launched sched).1.filter Event.isLaunch
        = sched.map (fun t => Event.runInstance t.1 t.2.2.ip
            ((subnetIds t.1).getD (t.2.1 % (subnetIds t.1).length) "") true) := by
  intro sched
  induction sched with
  | nil => intro launched; rfl
  | cons t rest ih =>
    intro launched
    obtain ⟨r, i, a⟩ := t
    rw [launch_seeds_go]
    simp only [if_neg (by simp : ¬ ((none : Option Nat) = some launched))]
    by_cases hlt : launched + 1 < total <;>
      cases internal <;>
        simp [launch_instance, Event.isLaunch, hlt, List.filter_append, ih (launched + 1)]

/-- Filtering a normal-launch trace keeps exactly the run_instances
calls for the nodes at index at least seed_count. -/
theorem launch_normals_go_filter (internal : Bool) (subnetIds : Region → List String)
    (seed_count : Nat) :
    ∀ (sched : List (Region × Nat × Addr)) (launched : Nat),
      (launch_normals_go internal subnetIds seed_count none launched sched).1.filter Event.isLaunch
        = (sched.filter (fun t => decide (seed_count ≤ t.2.1))).map
            (fun t => Event.runInstance t.1 t.2.2.ip
              ((subnetIds t.1).getD (t.2.1 % (subnetIds t.1).length) "") false) := by
  intro sched
  induction sched with
  | nil => intro launched; rfl
  | cons t rest ih =>
    intro launched
    obtain ⟨r, i, a⟩ := t
    rw [launch_normals_go]
    by_cases hi : i < seed_count
    · rw [if_pos hi]
      have hd : decide (seed_count ≤ i) = false := by
        simp
        omega
      simp [List.filter_cons, hd, ih launched]
    · rw [if_neg hi]
      have hd : decide (seed_count ≤ i) = true := by
        simp
        omega
      simp only [if_neg (by simp : ¬ ((none : Option Nat) = some launched))]
      cases internal <;>
        simp [launch_instance, Event.isLaunch, List.filter_cons, hd, ih (launched + 1)]

/-- C5: one step of the private scan reads exactly the iterator of
subnet i mod numSubnets, skipping ten candidates exactly when the step
index is below the subnet count — which happens precisely on the first
visit to that subnet, no earlier index having the same residue — and
takes the first candidate the provider reports free (the scanned list
splits as its all-in-use takeWhile prefix, the chosen address, and the
remainder the iterator resumes from); and the Instance Launcher selects
the same subnet index i mod len(subnets) for the node at per-region
index i, for seeds and for normals. -/
theorem private_subnet_and_launch_correspondence
    (used : Ip → Bool) (n i : Nat) (state : List (List Ip))
    (hosts rest : List Ip) (ip : Ip)
    (internal : Bool) (subnetIds : Region → List String)
    (seed_nodes node_ips : List (Region × List Addr)) (seed_count total : Nat)
    (hn : 0 < n)
    (hfind : findFreeIp used hosts = some (ip, rest)) :
    (private_ip_step used n i state
      = (findFreeIp used (if i < n then (state.getD (i % n) []).drop 10
            else state.getD (i % n) [])).map
          (fun q => (q.1, state.set (i % n) q.2))) ∧
    (decide (i < n) = (List.range i).all (fun j => ! (j % n == i % n))) ∧
    (hosts = hosts.takeWhile used ++ ip :: rest ∧ used ip = false) ∧
    ((launch_seed_nodes internal seed_nodes subnetIds total none).1.filter Event.isLaunch
      = (launch_schedule seed_nodes).map (fun t => Event.runInstance t.1 t.2.2.ip
          ((subnetIds t.1).getD (t.2.1 % (subnetIds t.1).length) "") true)) ∧
    ((launch_normal_nodes internal node_ips subnetIds seed_count none).1.filter Event.isLaunch
      = ((launch_schedule node_ips).filter (fun t => decide (seed_count ≤ t.2.1))).map
          (fun t => Event.runInstance t.1 t.2.2.ip
            ((subnetIds t.1).getD (t.2.1 % (subnetIds t.1).length) "") false)) := by
  refine ⟨?_, ?_, ?_, ?_, ?_⟩
  · rw [private_ip_step]
    rcases hf : findFreeIp used (if i < n then (state.getD (i % n) []).drop 10
        else state.getD (i % n) []) with _ | q
    · rfl
    · obtain ⟨qip, qrest⟩ := q
      rfl
  · by_cases hlt : i < n
    · rw [decide_eq_true hlt, eq_comm, List.all_eq_true]
      intro j hj
      have hji : j < i := List.mem_range.mp hj
      have h1 : j % n = j := Nat.mod_eq_of_lt (Nat.lt_trans hji hlt)
      have h2 : i % n = i := Nat.mod_eq_of_lt hlt
      simp [h1, h2]
      omega
    · rw [decide_eq_false hlt]
      rcases hall : (List.range i).all (fun j => ! (j % n == i % n)) with _ | _
      · rfl
      · exfalso
        have hni : n ≤ i := Nat.le_of_not_lt hlt
        have hmem : i - n ∈ List.range i := by
          rw [List.mem_range]
          omega
        have := List.all_eq_true.mp hall (i - n) hmem
        have hmod : (i - n) % n = i % n := by
          conv_rhs => rw [show i = i - n + n from by omega]
          rw [Nat.add_mod_right]
        simp [hmod] at this
  · rcases findFreeIp_some used hosts rest ip hfind with ⟨hdec, hfree, _, _⟩
    exact ⟨hdec, hfree⟩
  · exact launch_seeds_go_filter internal subnetIds total (launch_schedule seed_nodes) 0
  · exact launch_normals_go_filter internal subnetIds seed_count (launch_schedule node_ips) 0

/-- C5 witness: a revisited subnet (step 2 of 2 subnets) resumes
without the ten-candidate skip, the in-use candidate is passed over,
and the launch traces place each node into subnet i mod 2. -/
theorem private_subnet_and_launch_correspondence_witness :
    (private_ip_step sampleUsed 2 2 [["10.0.0.10", "10.0.0.11"], ["10.0.1.11"]]
      = (findFreeIp sampleUsed (if 2 < 2
            then ([["10.0.0.10", "10.0.0.11"], ["10.0.1.11"]].getD (2 % 2) []).drop 10
            else [["10.0.0.10", "10.0.0.11"], ["10.0.1.11"]].getD (2 % 2) [])).map
          (fun q => (q.1, [["10.0.0.10", "10.0.0.11"], ["10.0.1.11"]].set (2 % 2) q.2))) ∧
    (decide (2 < 2) = (List.range 2).all (fun j => ! (j % 2 == 2 % 2))) ∧
    (["10.0.0.10", "10.0.0.11"] = ["10.0.0.10", "10.0.0.11"].takeWhile sampleUsed
        ++ "10.0.0.11" :: [] ∧ sampleUsed "10.0.0.11" = false) ∧
    ((launch_seed_nodes false (pick_seed_node_ips sampleNodeIps 3) sampleSubnetIds 6 none).1.filter
        Event.isLaunch
      = (launch_schedule (pick_seed_node_ips sampleNodeIps 3)).map
          (fun t => Event.runInstance t.1 t.2.2.ip
            ((sampleSubnetIds t.1).getD (t.2.1 % (sampleSubnetIds t.1).length) "") true)) ∧
    ((launch_normal_nodes false sampleNodeIps sampleSubnetIds 3 none).1.filter Event.isLaunch
      = ((launch_schedule sampleNodeIps).filter (fun t => decide (3 ≤ t.2.1))).map
          (fun t => Event.runInstance t.1 t.2.2.ip
            ((sampleSubnetIds t.1).getD (t.2.1 % (sampleSubnetIds t.1).length) "") false)) :=
  private_subnet_and_launch_correspondence sampleUsed 2 2
    [["10.0.0.10", "10.0.0.11"], ["10.0.1.11"]] ["10.0.0.10", "10.0.0.11"] []
    "10.0.0.11" false sampleSubnetIds (pick_seed_node_ips sampleNodeIps 3) sampleNodeIps 3 6
    (by decide) (by decide)



/-- Intercalating over a list of at least two blocks peels off the
first block and one separator. -/
theorem intercalate_cons_of_ne_nil (sep b : List Event) (bs : List (List Event))
    (h : bs ≠ []) :
    List.intercalate sep (b :: bs) = b ++ sep ++ List.intercalate sep bs := by
  cases bs with
  | nil => exact absurd rfl h
  | cons c cs => simp [List.intercalate, List.intersperse_cons_cons]

/-- The seed-launch loop with no injected failure: every block of the
schedule, one sleep between consecutive blocks, plus a trailing sleep
exactly when the system-wide counter has not reached total. -/
theorem launch_seeds_go_paced (internal : Bool) (subnetIds : Region → List String)
    (total : Nat) :
    ∀ (sched : List (Region × Nat × Addr)) (launched : Nat),
      launched + sched.length ≤ total →
      (launch_seeds_go internal subnetIds total none launched sched).1
        = List.intercalate [Event.sleep 60] (sched.map (fun t =>
            launch_instance t.1 t.2.2
              ((subnetIds t.1).getD (t.2.1 % (subnetIds t.1).length) "") true internal))
          ++ (if launched + sched.length < total ∧ sched ≠ [] then [Event.sleep 60] else []) := by
  intro sched
  induction sched with
  | nil =>
    intro launched h
    simp [launch_seeds_go, List.intercalate]
  | cons t rest ih =>
    intro launched h
    obtain ⟨r, i, a⟩ := t
    rw [launch_seeds_go]
    simp only [if_neg (by simp : ¬ ((none : Option Nat) = some launched))]
    cases rest with
    | nil =>
      have hone : ((r, i, a) :: ([] : List (Region × Nat × Addr))).length = 1 := rfl
      by_cases hlt : launched + 1 < total
      · simp [launch_seeds_go, hlt, List.intercalate]
      · simp [launch_seeds_go, hlt, List.intercalate]
    | cons u us =>
      have hlen : ((r, i, a) :: u :: us).length = us.length + 2 := by simp
      have hlt : launched + 1 < total := by
        rw [hlen] at h
        omega
      have ihr := ih (launched + 1) (by
        rw [hlen] at h
        simp only [List.length_cons]
        omega)
      rw [List.map_cons,
        intercalate_cons_of_ne_nil [Event.sleep 60] _ _ (by simp), ihr]
      simp only [if_pos hlt]
      have hcond : (launched + 1 + (u :: us).length < total ∧ (u :: us) ≠ [])
          ↔ (launched + ((r, i, a) :: u :: us).length < total ∧ ((r, i, a) :: u :: us) ≠ []) := by
        simp only [List.length_cons, ne_eq, reduceCtorEq]
        constructor
        · intro hc
          exact ⟨by omega, by simp⟩
        · intro hc
          exact ⟨by omega, by simp⟩
      rw [if_congr hcond rfl rfl]
      simp [List.append_assoc]

/-- The normal-launch loop with no injected failure: one sleep
immediately before each launched block, nodes below seed_count
skipped. -/
theorem launch_normals_go_paced (internal : Bool) (subnetIds : Region → List String)
    (seed_count : Nat) :
    ∀ (sched : List (Region × Nat × Addr)) (launched : Nat),
      (launch_normals_go internal subnetIds seed_count none launched sched).1
        = (sched.filter (fun t => decide (seed_count ≤ t.2.1))).flatMap
            (fun t => Event.sleep 60 :: launch_instance t.1 t.2.2
              ((subnetIds t.1).getD (t.2.1 % (subnetIds t.1).length) "") false internal) := by
  intro sched
  induction sched with
  | nil => intro launched; rfl
  | cons t rest ih =>
    intro launched
    obtain ⟨r, i, a⟩ := t
    rw [launch_normals_go]
    by_cases hi : i < seed_count
    · rw [if_pos hi]
      have hd : decide (seed_count ≤ i) = false := by
        simp
        omega
      simp [List.filter_cons, hd, ih launched]
    · rw [if_neg hi]
      have hd : decide (seed_count ≤ i) = true := by
        simp
        omega
      simp only [if_neg (by simp : ¬ ((none : Option Nat) = some launched))]
      simp [List.filter_cons, hd, ih (launched + 1)]

/-- An event of one launch_instance block is the run_instances call or
the public-mode associate_address call. -/
theorem mem_launch_instance (r : Region) (a : Addr) (s : String) (isSeed internal : Bool)
    (e : Event) (he : e ∈ launch_instance r a s isSeed internal) :
    e = Event.runInstance r a.ip s isSeed
      ∨ e = Event.associateAddress r (a.allocationId.getD "") := by
  rw [launch_instance] at he
  rcases List.mem_cons.mp he with h | h
  · exact Or.inl h
  · cases internal with
    | false =>
      simp only [if_neg (by simp : ¬ ((false : Bool) = true)), List.mem_singleton] at h
      exact Or.inr h
    | true => simp at h

/-- No event of a seed-launch trace is a normal-node launch. -/
theorem launch_seeds_go_no_normal (internal : Bool) (subnetIds : Region → List String)
    (total : Nat) (fail? : Option Nat) :
    ∀ (sched : List (Region × Nat × Addr)) (launched : Nat),
      ∀ e ∈ (launch_seeds_go internal subnetIds total fail? launched sched).1,
        e.isNormalLaunch = false := by
  intro sched
  induction sched with
  | nil => intro launched e he; simp [launch_seeds_go] at he
  | cons t rest ih =>
    intro launched e he
    obtain ⟨r, i, a⟩ := t
    rw [launch_seeds_go] at he
    by_cases hf : fail? = some launched
    · rw [if_pos hf] at he
      simp at he
    · rw [if_neg hf] at he
      simp only [List.append_assoc, List.mem_append] at he
      rcases he with he | he | he
      · rcases mem_launch_instance r a _ true internal e he with rfl | rfl <;> rfl
      · by_cases hlt : launched + 1 < total
        · rw [if_pos hlt] at he
          simp only [List.mem_singleton] at he
          rw [he]
          rfl
        · rw [if_neg hlt] at he
          simp at he
      · exact ih (launched + 1) e he

/-- No event of a normal-launch trace is a seed launch. -/
theorem launch_normals_go_no_seed (internal : Bool) (subnetIds : Region → List String)
    (seed_count : Nat) (fail? : Option Nat) :
    ∀ (sched : List (Region × Nat × Addr)) (launched : Nat),
      ∀ e ∈ (launch_normals_go internal subnetIds seed_count fail? launched sched).1,
        e.isSeedLaunch = false := by
  intro sched
  induction sched with
  | nil => intro launched e he; simp [launch_normals_go] at he
  | cons t rest ih =>
    intro launched e he
    obtain ⟨r, i, a⟩ := t
    rw [launch_normals_go] at he
    by_cases hi : i < seed_count
    · rw [if_pos hi] at he
      exact ih launched e he
    · rw [if_neg hi] at he
      by_cases hf : fail? = some launched
      · rw [if_pos hf] at he
        simp only [List.mem_singleton] at he
        simp [he, Event.isSeedLaunch]
      · rw [if_neg hf] at he
        simp only [List.cons_append, List.mem_cons, List.mem_append] at he
        rcases he with he | he | he
        · rw [he]
          rfl
        · rcases mem_launch_instance r a _ false internal e he with rfl | rfl <;> rfl
        · exact ih (launched + 1) e he

/-- When the first part of a trace has no normal launch and the second
no seed launch, no seed launch occurs at or after the first normal
launch. -/
theorem append_seeds_before_normals (s t : List Event)
    (hs : ∀ e ∈ s, e.isNormalLaunch = false) (ht : ∀ e ∈ t, e.isSeedLaunch = false) :
    ((s ++ t).dropWhile (fun e => !e.isNormalLaunch)).all (fun e => !e.isSeedLaunch) = true := by
  induction s with
  | nil =>
    simp only [List.nil_append]
    rw [List.all_eq_true]
    intro e he
    have hmem : e ∈ t := (List.dropWhile_sublist _).mem he
    simp [ht e hmem]
  | cons x s2 ih =>
    have hx : x.isNormalLaunch = false := hs x (List.mem_cons_self _ _)
    simp only [List.cons_append]
    rw [List.dropWhile_cons]
    rw [if_pos (by simp [hx])]
    exact ih (fun e he => hs e (List.mem_cons_of_mem _ he))

/-- The seed schedule drawn from region lists of uniform length
cluster_size with k at most cluster_size has k entries per region. -/
theorem launch_schedule_pick_length (k cluster_size : Nat) (hk : k ≤ cluster_size) :
    ∀ (node_ips : List (Region × List Addr)),
      (∀ p ∈ node_ips, p.2.length = cluster_size) →
      (launch_schedule (pick_seed_node_ips node_ips k)).length = node_ips.length * k := by
  intro node_ips
  induction node_ips with
  | nil => intro _; simp [launch_schedule, pick_seed_node_ips]
  | cons p rest ih =>
    intro hlen
    have hp : p.2.length = cluster_size := hlen p (List.mem_cons_self _ _)
    have hr := ih (fun q hq => hlen q (List.mem_cons_of_mem _ hq))
    simp only [launch_schedule, pick_seed_node_ips, List.map_cons, List.flatMap_cons,
      List.length_append, List.length_map, List.enum_length] at hr ⊢
    rw [hr, List.length_take, hp]
    have : min k cluster_size = k := Nat.min_eq_left hk
    rw [this, List.length_cons, Nat.succ_mul]
    omega

/-- C2: seeds launch strictly before normals (no seed launch occurs at
or after the first normal launch of the combined trace); the seed trace
is the seed blocks in schedule order with exactly one 60-second sleep
between consecutive blocks system-wide and none after the last; and the
normal trace launches exactly the nodes at index at least seed_count,
each block preceded immediately by one 60-second sleep. -/
theorem launch_ordering_and_pacing (internal : Bool) (subnetIds : Region → List String)
    (node_ips : List (Region × List Addr)) (cluster_size : Nat)
    (hlen : ∀ p ∈ node_ips, p.2.length = cluster_size) :
    ((((launch_seed_nodes internal (pick_seed_node_ips node_ips (seed_count_of cluster_size))
            subnetIds (seed_count_of cluster_size * node_ips.length) none).1
        ++ (launch_normal_nodes internal node_ips subnetIds (seed_count_of cluster_size) none).1).dropWhile
          (fun e => !e.isNormalLaunch)).all (fun e => !e.isSeedLaunch) = true) ∧
    ((launch_seed_nodes internal (pick_seed_node_ips node_ips (seed_count_of cluster_size))
        subnetIds (seed_count_of cluster_size * node_ips.length) none).1
      = List.intercalate [Event.sleep 60]
          ((launch_schedule (pick_seed_node_ips node_ips (seed_count_of cluster_size))).map
            (fun t => launch_instance t.1 t.2.2
              ((subnetIds t.1).getD (t.2.1 % (subnetIds t.1).length) "") true internal))) ∧
    ((launch_normal_nodes internal node_ips subnetIds (seed_count_of cluster_size) none).1
      = ((launch_schedule node_ips).filter
            (fun t => decide (seed_count_of cluster_size ≤ t.2.1))).flatMap
          (fun t => Event.sleep 60 :: launch_instance t.1 t.2.2
            ((subnetIds t.1).getD (t.2.1 % (subnetIds t.1).length) "") false internal)) := by
  have hk : seed_count_of cluster_size ≤ cluster_size := Nat.min_le_left _ _
  have hsched := launch_schedule_pick_length (seed_count_of cluster_size) cluster_size hk
    node_ips hlen
  have htotal : (launch_schedule (pick_seed_node_ips node_ips (seed_count_of cluster_size))).length
      = seed_count_of cluster_size * node_ips.length := by
    rw [hsched, Nat.mul_comm]
  have hseed := launch_seeds_go_paced internal subnetIds
    (seed_count_of cluster_size * node_ips.length)
    (launch_schedule (pick_seed_node_ips node_ips (seed_count_of cluster_size))) 0
    (by rw [htotal]; omega)
  have hseedtrace : (launch_seed_nodes internal
      (pick_seed_node_ips node_ips (seed_count_of cluster_size)) subnetIds
      (seed_count_of cluster_size * node_ips.length) none).1
      = List.intercalate [Event.sleep 60]
          ((launch_schedule (pick_seed_node_ips node_ips (seed_count_of cluster_size))).map
            (fun t => launch_instance t.1 t.2.2
              ((subnetIds t.1).getD (t.2.1 % (subnetIds t.1).length) "") true internal)) := by
    rw [launch_seed_nodes, hseed, if_neg]
    · simp
    · rw [htotal]
      intro hcontra
      omega
  refine ⟨?_, hseedtrace, ?_⟩
  · exact append_seeds_before_normals _ _
      (launch_seeds_go_no_normal internal subnetIds _ none _ 0)
      (launch_normals_go_no_seed internal subnetIds _ none _ 0)
  · rw [launch_normal_nodes]
    exact launch_normals_go_paced internal subnetIds (seed_count_of cluster_size)
      (launch_schedule node_ips) 0

/-- C2 witness: a two-region run of size four — six seeds with five
sleeps between them and none after the last, then one normal node per
region, each behind its own sleep. -/
theorem launch_ordering_and_pacing_witness :
    ((((launch_seed_nodes false (pick_seed_node_ips sampleNodeIps (seed_count_of 4))
            sampleSubnetIds (seed_count_of 4 * sampleNodeIps.length) none).1
        ++ (launch_normal_nodes false sampleNodeIps sampleSubnetIds (seed_count_of 4) none).1).dropWhile
          (fun e => !e.isNormalLaunch)).all (fun e => !e.isSeedLaunch) = true) ∧
    ((launch_seed_nodes false (pick_seed_node_ips sampleNodeIps (seed_count_of 4))
        sampleSubnetIds (seed_count_of 4 * sampleNodeIps.length) none).1
      = List.intercalate [Event.sleep 60]
          ((launch_schedule (pick_seed_node_ips sampleNodeIps (seed_count_of 4))).map
            (fun t => launch_instance t.1 t.2.2
              ((sampleSubnetIds t.1).getD (t.2.1 % (sampleSubnetIds t.1).length) "") true false))) ∧
    ((launch_normal_nodes false sampleNodeIps sampleSubnetIds (seed_count_of 4) none).1
      = ((launch_schedule sampleNodeIps).filter
            (fun t => decide (seed_count_of 4 ≤ t.2.1))).flatMap
          (fun t => Event.sleep 60 :: launch_instance t.1 t.2.2
            ((sampleSubnetIds t.1).getD (t.2.1 % (sampleSubnetIds t.1).length) "") false false)) :=
  launch_ordering_and_pacing false sampleSubnetIds sampleNodeIps 4 (by decide)


/-- The public per-region allocation loop creates no security group,
records one allocateAddress event per stored address, and never
terminates an instance — for every failure injection. -/
theorem alloc_region_go_events (alloc : Region → Nat → Ip × String) (r : Region)
    (ri : Nat) (fail? : Option (Nat × Nat)) :
    ∀ (k i : Nat),
      (alloc_region_go alloc r ri fail? k i).2.1.filterMap Event.createdSG = [] ∧
      (alloc_region_go alloc r ri fail? k i).2.1.filterMap Event.allocatedAddr
        = (alloc_region_go alloc r ri fail? k i).1.map (fun a => (r, a.allocationId.getD "")) ∧
      (alloc_region_go alloc r ri fail? k i).2.1.all (fun e => !e.isTerminate) = true := by
  intro k
  induction k with
  | zero => intro i; exact ⟨rfl, rfl, rfl⟩
  | succ m ih =>
    intro i
    rw [alloc_region_go]
    by_cases hf : fail? = some (ri, i)
    · rw [if_pos hf]
      exact ⟨rfl, rfl, rfl⟩
    · rw [if_neg hf]
      have h := ih (i + 1)
      refine ⟨?_, ?_, ?_⟩
      · simp [List.filterMap_cons, Event.createdSG, h.1]
      · simp [List.filterMap_cons, Event.allocatedAddr, Addr.allocationId, h.2.1]
      · simp only [List.all_eq_true]
        intro x hx
        rcases List.mem_cons.mp hx with rfl | hx
        · rfl
        · have ht := List.all_eq_true.mp h.2.2 x hx
          simpa using ht

/-- The public allocation stage over all regions: no security group
created, the allocateAddress events match exactly the addresses stored
in the node_ips mapping, no instance terminated — for every failure
injection. -/
theorem allocate_public_ips_go_events (alloc : Region → Nat → Ip × String)
    (cs : Nat) (fail? : Option (Nat × Nat)) :
    ∀ (regions : List Region) (ri : Nat),
      (allocate_public_ips_go alloc cs fail? ri regions).2.1.filterMap Event.createdSG = [] ∧
      (allocate_public_ips_go alloc cs fail? ri regions).2.1.filterMap Event.allocatedAddr
        = (allocate_public_ips_go alloc cs fail? ri regions).1.flatMap
            (fun p => p.2.map (fun a => (p.1, a.allocationId.getD ""))) ∧
      (allocate_public_ips_go alloc cs fail? ri regions).2.1.all
        (fun e => !e.isTerminate) = true := by
  intro regions
  induction regions with
  | nil => intro ri; exact ⟨rfl, rfl, rfl⟩
  | cons r rs ih =>
    intro ri
    have hreg := alloc_region_go_events alloc r ri fail? cs 0
    have hent : (if (alloc_region_go alloc r ri fail? cs 0).1 = []
        then ([] : List (Region × List Addr))
        else [(r, (alloc_region_go alloc r ri fail? cs 0).1)]).flatMap
          (fun p => p.2.map (fun a => (p.1, a.allocationId.getD "")))
        = (alloc_region_go alloc r ri fail? cs 0).1.map (fun a => (r, a.allocationId.getD "")) := by
      by_cases hres : (alloc_region_go alloc r ri fail? cs 0).1 = []
      · rw [if_pos hres, hres]
        rfl
      · rw [if_neg hres]
        simp
    rw [allocate_public_ips_go]
    rcases herr : (alloc_region_go alloc r ri fail? cs 0).2.2 with _ | e
    · have hrest := ih (ri + 1)
      refine ⟨?_, ?_, ?_⟩ <;>
        simp [List.filterMap_append, List.all_append, List.flatMap_append,
          hreg.1, hreg.2.1, hreg.2.2, hrest.1, hrest.2.1, hrest.2.2, hent]
    · exact ⟨hreg.1, by simpa [hent] using hreg.2.1, hreg.2.2⟩

/-- The security-group stage: its createSG events match exactly the
accumulated group mapping, it allocates no address and terminates no
instance — for every failure injection. -/
theorem setup_security_groups_go_events (internal : Bool)
    (all_node_ips : List (Region × List Addr)) (sgIdOf : Region → String)
    (bastion : Region → Except Unit String) (fail? : Option (Nat × Bool)) :
    ∀ (l : List (Region × List Addr)) (rIdx : Nat),
      (setup_security_groups_go internal all_node_ips sgIdOf bastion fail? rIdx l).2.1.filterMap
          Event.createdSG
        = (setup_security_groups_go internal all_node_ips sgIdOf bastion fail? rIdx l).1 ∧
      (setup_security_groups_go internal all_node_ips sgIdOf bastion fail? rIdx l).2.1.filterMap
          Event.allocatedAddr = [] ∧
      (setup_security_groups_go internal all_node_ips sgIdOf bastion fail? rIdx l).2.1.all
        (fun e => !e.isTerminate) = true := by
  intro l
  induction l with
  | nil => intro rIdx; exact ⟨rfl, rfl, rfl⟩
  | cons p rest ih =>
    intro rIdx
    obtain ⟨r, ips⟩ := p
    rw [setup_security_groups_go]
    by_cases hf1 : fail? = some (rIdx, false)
    · rw [if_pos hf1]
      exact ⟨rfl, rfl, rfl⟩
    · rw [if_neg hf1]
      by_cases hf2 : fail? = some (rIdx, true)
      · rw [if_pos hf2]
        refine ⟨?_, rfl, rfl⟩
        simp [List.filterMap_cons, Event.createdSG]
      · rw [if_neg hf2]
        have h := ih (rIdx + 1)
        refine ⟨?_, ?_, ?_⟩
        · simp [List.filterMap_cons, Event.createdSG, Event.allocatedAddr, h.1]
        · simp [List.filterMap_cons, Event.createdSG, Event.allocatedAddr, h.2.1]
        · simp only [List.all_eq_true]
          intro x hx
          rcases List.mem_cons.mp hx with rfl | hx
          · rfl
          · rcases List.mem_cons.mp hx with rfl | hx
            · rfl
            · have ht := List.all_eq_true.mp h.2.2 x hx
              simpa using ht

/-- Every event of a seed-launch trace is a run, a sleep or an address
association: never a group creation, an address allocation or a
termination. -/
theorem launch_seeds_go_mem_shape (internal : Bool) (subnetIds : Region → List String)
    (total : Nat) (fail? : Option Nat) :
    ∀ (sched : List (Region × Nat × Addr)) (launched : Nat),
      ∀ e ∈ (launch_seeds_go internal subnetIds total fail? launched sched).1,
        e.createdSG = none ∧ e.allocatedAddr = none ∧ e.isTerminate = false := by
  intro sched
  induction sched with
  | nil => intro launched e he; simp [launch_seeds_go] at he
  | cons t rest ih =>
    intro launched e he
    obtain ⟨r, i, a⟩ := t
    rw [launch_seeds_go] at he
    by_cases hf : fail? = some launched
    · rw [if_pos hf] at he
      simp at he
    · rw [if_neg hf] at he
      simp only [List.append_assoc, List.mem_append] at he
      rcases he with he | he | he
      · rcases mem_launch_instance r a _ true internal e he with rfl | rfl <;>
          exact ⟨rfl, rfl, rfl⟩
      · by_cases hlt : launched + 1 < total
        · rw [if_pos hlt] at he
          simp only [List.mem_singleton] at he
          rw [he]
          exact ⟨rfl, rfl, rfl⟩
        · rw [if_neg hlt] at he
          simp at he
      · exact ih (launched + 1) e he

/-- Every event of a normal-launch trace is a run, a sleep or an
address association: never a group creation, an address allocation or a
termination. -/
theorem launch_normals_go_mem_shape (internal : Bool) (subnetIds : Region → List String)
    (seed_count : Nat) (fail? : Option Nat) :
    ∀ (sched : List (Region × Nat × Addr)) (launched : Nat),
      ∀ e ∈ (launch_normals_go internal subnetIds seed_count fail? launched sched).1,
        e.createdSG = none ∧ e.allocatedAddr = none ∧ e.isTerminate = false := by
  intro sched
  induction sched with
  | nil => intro launched e he; simp [launch_normals_go] at he
  | cons t rest ih =>
    intro launched e he
    obtain ⟨r, i, a⟩ := t
    rw [launch_normals_go] at he
    by_cases hi : i < seed_count
    · rw [if_pos hi] at he
      exact ih launched e he
    · rw [if_neg hi] at he
      by_cases hf : fail? = some launched
      · rw [if_pos hf] at he
        simp only [List.mem_singleton] at he
        rw [he]
        exact ⟨rfl, rfl, rfl⟩
      · rw [if_neg hf] at he
        simp only [List.cons_append, List.mem_cons, List.mem_append] at he
        rcases he with he | he | he
        · rw [he]
          exact ⟨rfl, rfl, rfl⟩
        · rcases mem_launch_instance r a _ false internal e he with rfl | rfl <;>
            exact ⟨rfl, rfl, rfl⟩
        · exact ih (launched + 1) e he

/-- The allocation stage of the orchestrator: no group created, the
allocateAddress events match the stored node_ips mapping in public
mode, no instance terminated — for every failure injection. -/
theorem cli_alloc_events (env : CliEnv) (fp : Option FailAt) :
    (cli_alloc env fp).2.1.filterMap Event.createdSG = [] ∧
    (env.internal = false →
      (cli_alloc env fp).2.1.filterMap Event.allocatedAddr
        = (cli_alloc env fp).1.flatMap
            (fun p => p.2.map (fun a => (p.1, a.allocationId.getD "")))) ∧
    (cli_alloc env fp).2.1.all (fun e => !e.isTerminate) = true := by
  rw [cli_alloc]
  rcases hi : env.internal with _ | _
  · simp only [hi, Bool.false_eq_true, if_false]
    have h := allocate_public_ips_go_events env.pubAlloc env.cluster_size (allocPubFail fp)
      env.regions 0
    exact ⟨h.1, fun _ => h.2.1, h.2.2⟩
  · simp only [hi, if_true]
    refine ⟨rfl, ?_, rfl⟩
    intro hcontra
    simp at hcontra

/-- The rollback pass issues only deleteSG and releaseAddress calls,
never an instance termination. -/
theorem cli_rollback_no_terminate (internal : Bool)
    (security_groups : List (Region × String)) (node_ips : List (Region × List Addr)) :
    (cli_rollback internal security_groups node_ips).all (fun e => !e.isTerminate) = true := by
  rw [List.all_eq_true]
  intro e he
  rw [cli_rollback] at he
  rcases List.mem_append.mp he with he | he
  · rcases List.mem_map.mp he with ⟨p, _, hp⟩
    rw [← hp]
    rfl
  · cases internal with
    | true => simp at he
    | false =>
      simp only [if_neg (by simp : ¬ ((false : Bool) = true))] at he
      rcases List.mem_flatMap.mp he with ⟨p, _, hp⟩
      rcases List.mem_map.mp hp with ⟨a, _, ha⟩
      rw [← ha]
      rfl

/-- The try block when AMI discovery raises. -/
theorem cli_body_eq_amis (env : CliEnv) (fp : Option FailAt) (h : fp = some FailAt.amis) :
    cli_body env fp = ⟨[], [], [], some (.injected .amis)⟩ := by
  rw [cli_body, if_pos h]

/-- The try block when address allocation raises. -/
theorem cli_body_eq_allocFail (env : CliEnv) (fp : Option FailAt) (e : RunError)
    (hami : ¬ fp = some FailAt.amis) (hA : (cli_alloc env fp).2.2 = some e) :
    cli_body env fp = ⟨(cli_alloc env fp).1, [], (cli_alloc env fp).2.1, some e⟩ := by
  rw [cli_body, if_neg hami]
  simp only [hA]

/-- The try block when security-group setup raises. -/
theorem cli_body_eq_sgFail (env : CliEnv) (fp : Option FailAt) (e : RunError)
    (hami : ¬ fp = some FailAt.amis) (hA : (cli_alloc env fp).2.2 = none)
    (hS : (setup_security_groups env.internal (cli_alloc env fp).1 env.sgIdOf env.bastion
        (sgFail fp)).2.2 = some e) :
    cli_body env fp = ⟨(cli_alloc env fp).1,
      (setup_security_groups env.internal (cli_alloc env fp).1 env.sgIdOf env.bastion
        (sgFail fp)).1,
      (cli_alloc env fp).2.1
        ++ (setup_security_groups env.internal (cli_alloc env fp).1 env.sgIdOf env.bastion
            (sgFail fp)).2.1,
      some e⟩ := by
  rw [cli_body, if_neg hami]
  simp only [hA, hS]

/-- The try block when user-data generation raises. -/
theorem cli_body_eq_userDataFail (env : CliEnv) (fp : Option FailAt) (e : RunError)
    (hami : ¬ fp = some FailAt.amis) (hA : (cli_alloc env fp).2.2 = none)
    (hS : (setup_security_groups env.internal (cli_alloc env fp).1 env.sgIdOf env.bastion
        (sgFail fp)).2.2 = none)
    (hU : cli_userdata_err fp = some e) :
    cli_body env fp = ⟨(cli_alloc env fp).1,
      (setup_security_groups env.internal (cli_alloc env fp).1 env.sgIdOf env.bastion
        (sgFail fp)).1,
      (cli_alloc env fp).2.1
        ++ (setup_security_groups env.internal (cli_alloc env fp).1 env.sgIdOf env.bastion
            (sgFail fp)).2.1,
      some e⟩ := by
  rw [cli_body, if_neg hami]
  simp only [hA, hS, hU]

/-- The try block when a seed launch raises. -/
theorem cli_body_eq_seedFail (env : CliEnv) (fp : Option FailAt) (e : RunError)
    (hami : ¬ fp = some FailAt.amis) (hA : (cli_alloc env fp).2.2 = none)
    (hS : (setup_security_groups env.internal (cli_alloc env fp).1 env.sgIdOf env.bastion
        (sgFail fp)).2.2 = none)
    (hU : cli_userdata_err fp = none)
    (hL : (launch_seed_nodes env.internal
        (pick_seed_node_ips (cli_alloc env fp).1 (seed_count_of env.cluster_size))
        env.subnetIds (seed_count_of env.cluster_size * env.regions.length)
        (seedFail fp)).2 = some e) :
    cli_body env fp = ⟨(cli_alloc env fp).1,
      (setup_security_groups env.internal (cli_alloc env fp).1 env.sgIdOf env.bastion
        (sgFail fp)).1,
      (cli_alloc env fp).2.1
        ++ (setup_security_groups env.internal (cli_alloc env fp).1 env.sgIdOf env.bastion
            (sgFail fp)).2.1
        ++ (launch_seed_nodes env.internal
            (pick_seed_node_ips (cli_alloc env fp).1 (seed_count_of env.cluster_size))
            env.subnetIds (seed_count_of env.cluster_size * env.regions.length)
            (seedFail fp)).1,
      some e⟩ := by
  rw [cli_body, if_neg hami]
  simp only [hA, hS, hU, hL]

/-- The try block when the launches complete: the result carries the
outcome of the normal-launch stage. -/
theorem cli_body_eq_launches (env : CliEnv) (fp : Option FailAt)
    (hami : ¬ fp = some FailAt.amis) (hA : (cli_alloc env fp).2.2 = none)
    (hS : (setup_security_groups env.internal (cli_alloc env fp).1 env.sgIdOf env.bastion
        (sgFail fp)).2.2 = none)
    (hU : cli_userdata_err fp = none)
    (hL : (launch_seed_nodes env.internal
        (pick_seed_node_ips (cli_alloc env fp).1 (seed_count_of env.cluster_size))
        env.subnetIds (seed_count_of env.cluster_size * env.regions.length)
        (seedFail fp)).2 = none) :
    cli_body env fp = ⟨(cli_alloc env fp).1,
      (setup_security_groups env.internal (cli_alloc env fp).1 env.sgIdOf env.bastion
        (sgFail fp)).1,
      (cli_alloc env fp).2.1
        ++ (setup_security_groups env.internal (cli_alloc env fp).1 env.sgIdOf env.bastion
            (sgFail fp)).2.1
        ++ (launch_seed_nodes env.internal
            (pick_seed_node_ips (cli_alloc env fp).1 (seed_count_of env.cluster_size))
            env.subnetIds (seed_count_of env.cluster_size * env.regions.length)
            (seedFail fp)).1
        ++ (launch_normal_nodes env.internal (cli_alloc env fp).1 env.subnetIds
            (seed_count_of env.cluster_size) (normalFail fp)).1,
      (launch_normal_nodes env.internal (cli_alloc env fp).1 env.subnetIds
        (seed_count_of env.cluster_size) (normalFail fp)).2⟩ := by
  rw [cli_body, if_neg hami]
  simp only [hA, hS, hU, hL]

/-- What the try block accumulates, for every environment and failure
injection: the security_groups mapping holds exactly the groups whose
creation calls appear in the trace; in public mode the node_ips mapping
holds exactly the allocations whose calls appear in the trace; and the
trace never contains an instance termination. -/
theorem cli_body_events (env : CliEnv) (fp : Option FailAt) :
    (cli_body env fp).events.filterMap Event.createdSG = (cli_body env fp).security_groups ∧
    (env.internal = false →
      (cli_body env fp).events.filterMap Event.allocatedAddr
        = (cli_body env fp).node_ips.flatMap
            (fun p => p.2.map (fun a => (p.1, a.allocationId.getD "")))) ∧
    (cli_body env fp).events.all (fun e => !e.isTerminate) = true := by
  have hA := cli_alloc_events env fp
  have hSgo := setup_security_groups_go_events env.internal (cli_alloc env fp).1 env.sgIdOf
    env.bastion (sgFail fp) (cli_alloc env fp).1 0
  have hSeed := launch_seeds_go_mem_shape env.internal env.subnetIds
    (seed_count_of env.cluster_size * env.regions.length) (seedFail fp)
    (launch_schedule (pick_seed_node_ips (cli_alloc env fp).1
      (seed_count_of env.cluster_size))) 0
  have hNorm := launch_normals_go_mem_shape env.internal env.subnetIds
    (seed_count_of env.cluster_size) (normalFail fp)
    (launch_schedule (cli_alloc env fp).1) 0
  have hSeedC : (launch_seed_nodes env.internal (pick_seed_node_ips (cli_alloc env fp).1
      (seed_count_of env.cluster_size)) env.subnetIds
      (seed_count_of env.cluster_size * env.regions.length) (seedFail fp)).1.filterMap
        Event.createdSG = [] := by
    rw [List.filterMap_eq_nil_iff]
    intro e he
    exact (hSeed e he).1
  have hSeedA : (launch_seed_nodes env.internal (pick_seed_node_ips (cli_alloc env fp).1
      (seed_count_of env.cluster_size)) env.subnetIds
      (seed_count_of env.cluster_size * env.regions.length) (seedFail fp)).1.filterMap
        Event.allocatedAddr = [] := by
    rw [List.filterMap_eq_nil_iff]
    intro e he
    exact (hSeed e he).2.1
  have hSeedT : (launch_seed_nodes env.internal (pick_seed_node_ips (cli_alloc env fp).1
      (seed_count_of env.cluster_size)) env.subnetIds
      (seed_count_of env.cluster_size * env.regions.length) (seedFail fp)).1.all
        (fun e => !e.isTerminate) = true := by
    rw [List.all_eq_true]
    intro e he
    simp [(hSeed e he).2.2]
  have hNormC : (launch_normal_nodes env.internal (cli_alloc env fp).1 env.subnetIds
      (seed_count_of env.cluster_size) (normalFail fp)).1.filterMap Event.createdSG = [] := by
    rw [List.filterMap_eq_nil_iff]
    intro e he
    exact (hNorm e he).1
  have hNormA : (launch_normal_nodes env.internal (cli_alloc env fp).1 env.subnetIds
      (seed_count_of env.cluster_size) (normalFail fp)).1.filterMap Event.allocatedAddr = [] := by
    rw [List.filterMap_eq_nil_iff]
    intro e he
    exact (hNorm e he).2.1
  have hNormT : (launch_normal_nodes env.internal (cli_alloc env fp).1 env.subnetIds
      (seed_count_of env.cluster_size) (normalFail fp)).1.all
        (fun e => !e.isTerminate) = true := by
    rw [List.all_eq_true]
    intro e he
    simp [(hNorm e he).2.2]
  have hSC : (setup_security_groups env.internal (cli_alloc env fp).1 env.sgIdOf env.bastion
      (sgFail fp)).2.1.filterMap Event.createdSG
      = (setup_security_groups env.internal (cli_alloc env fp).1 env.sgIdOf env.bastion
          (sgFail fp)).1 := hSgo.1
  have hSA : (setup_security_groups env.internal (cli_alloc env fp).1 env.sgIdOf env.bastion
      (sgFail fp)).2.1.filterMap Event.allocatedAddr = [] := hSgo.2.1
  have hST : (setup_security_groups env.internal (cli_alloc env fp).1 env.sgIdOf env.bastion
      (sgFail fp)).2.1.all (fun e => !e.isTerminate) = true := hSgo.2.2
  by_cases hami : fp = some FailAt.amis
  · rw [cli_body_eq_amis env fp hami]
    exact ⟨rfl, fun _ => rfl, rfl⟩
  · rcases hAerr : (cli_alloc env fp).2.2 with _ | e0
    · rcases hSerr : (setup_security_groups env.internal (cli_alloc env fp).1 env.sgIdOf
          env.bastion (sgFail fp)).2.2 with _ | e1
      · rcases hU : cli_userdata_err fp with _ | e2
        · rcases hL : (launch_seed_nodes env.internal
              (pick_seed_node_ips (cli_alloc env fp).1 (seed_count_of env.cluster_size))
              env.subnetIds (seed_count_of env.cluster_size * env.regions.length)
              (seedFail fp)).2 with _ | e3
          · rw [cli_body_eq_launches env fp hami hAerr hSerr hU hL]
            refine ⟨?_, ?_, ?_⟩
            · simp [List.filterMap_append, hA.1, hSC, hSeedC, hNormC]
            · intro hi
              simp [List.filterMap_append, hA.2.1 hi, hSA, hSeedA, hNormA]
            · simp [List.all_append, hA.2.2, hST, hSeedT, hNormT]
          · rw [cli_body_eq_seedFail env fp e3 hami hAerr hSerr hU hL]
            refine ⟨?_, ?_, ?_⟩
            · simp [List.filterMap_append, hA.1, hSC, hSeedC]
            · intro hi
              simp [List.filterMap_append, hA.2.1 hi, hSA, hSeedA]
            · simp [List.all_append, hA.2.2, hST, hSeedT]
        · rw [cli_body_eq_userDataFail env fp e2 hami hAerr hSerr hU]
          refine ⟨?_, ?_, ?_⟩
          · simp [List.filterMap_append, hA.1, hSC]
          · intro hi
            simp [List.filterMap_append, hA.2.1 hi, hSA]
          · simp [List.all_append, hA.2.2, hST]
      · rw [cli_body_eq_sgFail env fp e1 hami hAerr hSerr]
        refine ⟨?_, ?_, ?_⟩
        · simp [List.filterMap_append, hA.1, hSC]
        · intro hi
          simp [List.filterMap_append, hA.2.1 hi, hSA]
        · simp [List.all_append, hA.2.2, hST]
    · rw [cli_body_eq_allocFail env fp e0 hami hAerr]
      exact ⟨hA.1, hA.2.1, hA.2.2⟩

/-- C1: whenever the try block fails with any unhandled error, the run
re-raises exactly that error (rollback never converts a failure into a
success); the emitted trace is the body trace followed by one deleteSG
call for every security group the run created — exactly the groups
whose creation calls occurred — and, in public mode, one releaseAddress
call for every allocation the run recorded — exactly the addresses
whose allocation calls occurred, skipped entirely in internal mode; and
no instance-termination call occurs anywhere in the run. -/
theorem rollback_spec (env : CliEnv) (fp : Option FailAt) (e : RunError)
    (herr : (cli_body env fp).err = some e) :
    ((cli env fp).2 = Except.error e) ∧
    ((cli env fp).1 = (cli_body env fp).events
        ++ (cli_body env fp).security_groups.map (fun p => Event.deleteSG p.1 p.2)
        ++ (if env.internal then []
            else (cli_body env fp).node_ips.flatMap
              (fun p => p.2.map (fun a => Event.releaseAddress p.1 (a.allocationId.getD ""))))) ∧
    ((cli_body env fp).events.filterMap Event.createdSG
        = (cli_body env fp).security_groups) ∧
    (env.internal = false →
      (cli_body env fp).events.filterMap Event.allocatedAddr
        = (cli_body env fp).node_ips.flatMap
            (fun p => p.2.map (fun a => (p.1, a.allocationId.getD "")))) ∧
    ((cli env fp).1.all (fun ev => !ev.isTerminate) = true) := by
  have hb := cli_body_events env fp
  have hcli : cli env fp = ((cli_body env fp).events
      ++ cli_rollback env.internal (cli_body env fp).security_groups (cli_body env fp).node_ips,
      Except.error e) := by
    rw [cli, herr]
  refine ⟨?_, ?_, hb.1, hb.2.1, ?_⟩
  · rw [hcli]
  · rw [hcli, cli_rollback]
    simp [List.append_assoc]
  · rw [hcli]
    simp only [List.all_append]
    rw [hb.2.2, cli_rollback_no_terminate]
    rfl

/-- C1 witness: a failure injected while configuring the second
security group of a two-region public run — the error is re-raised, the
createSG events match the group mapping, the allocateAddress events
match the address mapping, and no termination call appears anywhere. -/
theorem rollback_spec_witness :
    ((cli sampleEnv (some (FailAt.sgSetup 1 true))).2
      = Except.error (RunError.injected (FailAt.sgSetup 1 true))) ∧
    ((cli_body sampleEnv (some (FailAt.sgSetup 1 true))).events.filterMap Event.createdSG
      = (cli_body sampleEnv (some (FailAt.sgSetup 1 true))).security_groups) ∧
    ((cli_body sampleEnv (some (FailAt.sgSetup 1 true))).events.filterMap Event.allocatedAddr
      = (cli_body sampleEnv (some (FailAt.sgSetup 1 true))).node_ips.flatMap
          (fun p => p.2.map (fun a => (p.1, a.allocationId.getD "")))) ∧
    ((cli sampleEnv (some (FailAt.sgSetup 1 true))).1.all (fun ev => !ev.isTerminate) = true) := by
  have h := rollback_spec sampleEnv (some (FailAt.sgSetup 1 true))
    (RunError.injected (FailAt.sgSetup 1 true)) (by rfl)
  exact ⟨h.1, h.2.2.1, h.2.2.2.1 rfl, h.2.2.2.2⟩

end PlanB
